import Mathlib

/-!
# gl/read-file.c: whole-stream reader

A shallow embedding of `fread_file`, `internal_read_file`, `read_file` and
`read_binary_file` from `gl/read-file.c`, together with an explicit model of the
C library calls they make (`fstat`, `ftello`, `malloc`, `realloc`, `free`,
`fread`, `ferror`, `fopen`, `fclose`) and of `errno`.

* `size_t` values are natural numbers, reduced modulo `SIZE_MAX + 1` wherever the
  C code does `size_t` arithmetic.
* `off_t` values are integers.
* An allocated block is the list of its bytes; its length is its capacity.
* The `for (;;)` loop is run with fuel; `none` means the fuel ran out.
-/

namespace ReadFile

abbrev Byte := UInt8

/-- Constants that the C code takes from system headers. -/
structure Platform where
  SIZE_MAX : Nat
  BUFSIZ : Nat
  ENOMEM : Int

/-- Library calls, logged in the order they are made. -/
inductive Call where
  | fopen (filename mode : String)
  | fstat
  | ftello
  | malloc (n : Nat)
  | realloc (n : Nat)
  | fread (requested : Nat)
  | ferror
  | free
  | fclose
  deriving DecidableEq, Repr

/-- The part of `struct stat` the code looks at. -/
structure Stat where
  /-- Value of `S_ISREG (st.st_mode)`. -/
  isreg : Bool
  st_size : Int

/-- A stdio stream, as far as the code can observe it. -/
structure FILE where
  /-- Outcome of `fstat (fileno (stream), &st)`: the metadata, or the errno of a failure. -/
  stat : Except Int Stat
  /-- Outcome of `ftello (stream)`: the position, or the errno of a failure (result -1). -/
  tell : Except Int Nat
  /-- Bytes the stream still delivers before its end event. -/
  data : List Byte
  /-- End event after `data`: `none` is end-of-file, `some e` a read error with errno `e`. -/
  fail : Option Int
  /-- Error indicator of the stream. -/
  error : Bool
  /-- Outcome of `fclose`: `none` is success, `some e` a failure with errno `e`. -/
  close : Option Int

/-- Process state around the stream: `errno`, the allocator and the call log. -/
structure World where
  errno : Int
  trace : List Call
  /-- Number of allocation requests (`malloc`, `realloc`) made so far. -/
  nalloc : Nat
  /-- Allocator outcome for the `i`-th request, of `n` bytes: `none` is success,
  `some e` a failure that sets errno to `e`. -/
  heap : Nat → Nat → Option Int
  /-- Content of fresh memory at a given offset of a block. -/
  junk : Nat → Byte
  /-- Errno value that `free` leaves behind, if it touches errno. -/
  freeErrno : Option Int

/-- Conversion of a mathematical value to `size_t`. -/
def size_t (P : Platform) (n : Nat) : Nat := n % (P.SIZE_MAX + 1)

/-- Addition in `size_t`. -/
def size_add (P : Platform) (a b : Nat) : Nat := (a + b) % (P.SIZE_MAX + 1)

/-- Subtraction in `size_t`. -/
def size_sub (P : Platform) (a b : Nat) : Nat :=
  (a % (P.SIZE_MAX + 1) + (P.SIZE_MAX + 1) - b % (P.SIZE_MAX + 1)) % (P.SIZE_MAX + 1)

def World.log (w : World) (c : Call) : World := { w with trace := w.trace ++ [c] }

/-- The call `fstat (fileno (stream), &st)`: `some st` when the result is `>= 0`. -/
def fstat (s : FILE) (w : World) : Option Stat × World :=
  match s.stat with
  | .ok st => (some st, w.log .fstat)
  | .error e => (none, { w.log .fstat with errno := e })

/-- The call `ftello (stream)`. -/
def ftello (s : FILE) (w : World) : Int × World :=
  match s.tell with
  | .ok pos => ((pos : Int), w.log .ftello)
  | .error e => (-1, { w.log .ftello with errno := e })

/-- Fresh block of `n` bytes. -/
def fresh (w : World) (n : Nat) : List Byte := (List.range n).map w.junk

/-- The call `malloc (n)`: the new block, or `none` for `NULL`. -/
def malloc (n : Nat) (w : World) : Option (List Byte) × World :=
  let w1 := { w.log (.malloc n) with nalloc := w.nalloc + 1 }
  match w.heap w.nalloc n with
  | none => (some (fresh w n), w1)
  | some e => (none, { w1 with errno := e })

/-- The call `realloc (buf, n)`: the resized block with the old content kept up to
the smaller of the two sizes, or `none` for `NULL` (the old block stays valid). -/
def realloc (buf : List Byte) (n : Nat) (w : World) : Option (List Byte) × World :=
  let w1 := { w.log (.realloc n) with nalloc := w.nalloc + 1 }
  match w.heap w.nalloc n with
  | none => (some ((buf ++ fresh w (n - buf.length)).take n), w1)
  | some e => (none, { w1 with errno := e })

/-- The call `free (buf)`. -/
def free (w : World) : World :=
  match w.freeErrno with
  | none => w.log .free
  | some e => { w.log .free with errno := e }

/-- The call `fread (dest, 1, requested, stream)`: the bytes delivered (their number
is the return value), the stream and the world afterwards. A request that the
stream cannot satisfy returns what is left and triggers the end event. -/
def fread (s : FILE) (requested : Nat) (w : World) : List Byte × FILE × World :=
  if requested ≤ s.data.length then
    (s.data.take requested, { s with data := s.data.drop requested }, w.log (.fread requested))
  else
    match s.fail with
    | none => (s.data, { s with data := [] }, w.log (.fread requested))
    | some e =>
      (s.data, { s with data := [], error := true },
        { w.log (.fread requested) with errno := e })

/-- The call `ferror (stream)`. -/
def ferror (s : FILE) (w : World) : Bool × World := (s.error, w.log .ferror)

/-- Bytes written by `fread` at `buf + off`. -/
def store (buf : List Byte) (off : Nat) (bytes : List Byte) : List Byte :=
  buf.take off ++ bytes ++ buf.drop (off + bytes.length)

/-- Return value of `fread_file`: `none` is `NULL`; otherwise the returned block
and the value stored in `*length`. With it, the stream and the world afterwards. -/
abbrev Result := Option (List Byte × Nat) × FILE × World

/-- Local variables of `fread_file` at the head of the `for (;;)` loop. -/
structure LoopState where
  buf : List Byte
  alloc : Nat
  size : Nat
  stream : FILE
  world : World

/-- Outcome of one pass through the loop body. -/
inductive Step where
  | next (st : LoopState)
  | done (r : Result)

/-- Code after the loop: `free (buf); errno = save_errno; return NULL;`. -/
def fread_file_fail (save_errno : Int) (s : FILE) (w : World) : Result :=
  (none, s, { free w with errno := save_errno })

/-- The growth of `alloc` in the loop body: `if (alloc < SIZE_MAX - alloc / 2)
alloc = alloc + alloc / 2; else alloc = SIZE_MAX;`. -/
def next_alloc (P : Platform) (alloc : Nat) : Nat :=
  if alloc < size_sub P P.SIZE_MAX (alloc / 2) then
    size_add P alloc (alloc / 2)
  else P.SIZE_MAX

/-- One pass through the body of the `for (;;)` loop of `fread_file`. -/
def loop_body (P : Platform) (st : LoopState) : Step :=
  let requested := size_sub P st.alloc st.size
  let (bytes, s1, w1) := fread st.stream requested st.world
  let count := bytes.length
  let buf1 := store st.buf st.size bytes
  let size := size_add P st.size count
  if count ≠ requested then
    let save_errno := w1.errno
    let (e, w2) := ferror s1 w1
    if e then
      .done (fread_file_fail save_errno s1 w2)
    else
      let (buf2, w3) :=
        if size < size_sub P st.alloc 1 then
          match realloc buf1 (size_add P size 1) w2 with
          | (some smaller_buf, w3) => (smaller_buf, w3)
          | (none, w3) => (buf1, w3)
        else (buf1, w2)
      .done (some (buf2.set size 0, size), s1, w3)
  else
    if st.alloc = P.SIZE_MAX then
      .done (fread_file_fail P.ENOMEM s1 w1)
    else
      let alloc := next_alloc P st.alloc
      match realloc buf1 alloc w1 with
      | (none, w2) => .done (fread_file_fail w2.errno s1 w2)
      | (some new_buf, w2) =>
        .next { buf := new_buf, alloc := alloc, size := size, stream := s1, world := w2 }

/-- The `for (;;)` loop of `fread_file`, run for at most `fuel` passes. -/
def fread_loop (P : Platform) : Nat → LoopState → Option Result
  | 0, _ => none
  | fuel + 1, st =>
    match loop_body P st with
    | .done r => some r
    | .next st1 => fread_loop P fuel st1

/-- First block of `fread_file`: the initial value of `alloc`, or the world at the
early `return NULL` of the overflow guard. -/
def fread_file_alloc (P : Platform) (s : FILE) (w : World) : Except World (Nat × World) :=
  match fstat s w with
  | (some st, w1) =>
    if st.isreg then
      let (pos, w2) := ftello s w1
      if 0 ≤ pos ∧ pos < st.st_size then
        let alloc_off := st.st_size - pos
        if (P.SIZE_MAX : Int) - 1 < alloc_off then
          .error { w2 with errno := P.ENOMEM }
        else .ok (size_t P (alloc_off + 1).toNat, w2)
      else .ok (size_t P P.BUFSIZ, w2)
    else .ok (size_t P P.BUFSIZ, w1)
  | (none, w1) => .ok (size_t P P.BUFSIZ, w1)

/-- State at the first pass of the loop, or the result of an early return. -/
def fread_file_init (P : Platform) (s : FILE) (w : World) : Except Result LoopState :=
  match fread_file_alloc P s w with
  | .error w1 => .error (none, s, w1)
  | .ok (alloc, w1) =>
    match malloc alloc w1 with
    | (none, w2) => .error (none, s, w2)
    | (some buf, w2) => .ok { buf := buf, alloc := alloc, size := 0, stream := s, world := w2 }

/-- The function `fread_file (stream, length)`. -/
def fread_file (P : Platform) (fuel : Nat) (s : FILE) (w : World) : Option Result :=
  match fread_file_init P s w with
  | .error r => some r
  | .ok st => fread_loop P fuel st

/-- The call `fopen (filename, mode)` against a file system `fs`. -/
def fopen (fs : String → String → Except Int FILE) (filename mode : String) (w : World) :
    Option FILE × World :=
  match fs filename mode with
  | .ok s => (some s, w.log (.fopen filename mode))
  | .error e => (none, { w.log (.fopen filename mode) with errno := e })

/-- The call `fclose (stream)`: `true` when the result is `!= 0`. -/
def fclose (s : FILE) (w : World) : Bool × World :=
  match s.close with
  | none => (false, w.log .fclose)
  | some e => (true, { w.log .fclose with errno := e })

/-- Return value of `internal_read_file`, with the world afterwards. -/
abbrev FileResult := Option (List Byte × Nat) × World

/-- The function `internal_read_file (filename, length, mode)`. -/
def internal_read_file (P : Platform) (fuel : Nat) (fs : String → String → Except Int FILE)
    (filename mode : String) (w : World) : Option FileResult :=
  match fopen fs filename mode w with
  | (none, w1) => some (none, w1)
  | (some stream, w1) =>
    match fread_file P fuel stream w1 with
    | none => none
    | some (out, s2, w2) =>
      let save_errno := w2.errno
      match fclose s2 w2 with
      | (true, w3) =>
        match out with
        | some _ =>
          let save_errno := w3.errno
          some (none, { free w3 with errno := save_errno })
        | none => some (none, { w3 with errno := save_errno })
      | (false, w3) => some (out, w3)

/-- The function `read_file (filename, length)`. -/
def read_file (P : Platform) (fuel : Nat) (fs : String → String → Except Int FILE)
    (filename : String) (w : World) : Option FileResult :=
  internal_read_file P fuel fs filename "r" w

/-- The function `read_binary_file (filename, length)`. -/
def read_binary_file (P : Platform) (fuel : Nat) (fs : String → String → Except Int FILE)
    (filename : String) (w : World) : Option FileResult :=
  internal_read_file P fuel fs filename "rb" w

/-- State after `n` full passes of the loop, when none of them left the loop. -/
def loop_iter (P : Platform) : Nat → LoopState → Option LoopState
  | 0, st => some st
  | n + 1, st =>
    match loop_body P st with
    | .done _ => none
    | .next st1 => loop_iter P n st1


/-- Shape of the loop state that every pass preserves. -/
def LoopState.Inv (P : Platform) (st : LoopState) : Prop :=
  st.buf.length = st.alloc ∧ st.size ≤ st.alloc ∧ st.alloc ≤ P.SIZE_MAX

/-- The size hint that `fread_file` takes from the metadata: `st.st_size - pos`
when `fstat` succeeds, `S_ISREG` holds, and `ftello` gives a position `pos >= 0`
with `pos < st.st_size`; no hint otherwise. -/
def size_hint (s : FILE) : Option Int :=
  match s.stat, s.tell with
  | .ok st, .ok pos =>
    if st.isreg = true ∧ (pos : Int) < st.st_size then some (st.st_size - pos) else none
  | _, _ => none

/-! ## Concrete platforms, worlds and streams used in the examples -/

/-- A 64-bit platform: `size_t` has 64 bits, `BUFSIZ` is 1024, `ENOMEM` is 12. -/
def lp64 : Platform := { SIZE_MAX := 18446744073709551615, BUFSIZ := 1024, ENOMEM := 12 }

/-- A 32-bit platform with a 64-bit `off_t`: `size_t` has 32 bits. -/
def ilp32 : Platform := { SIZE_MAX := 4294967295, BUFSIZ := 1024, ENOMEM := 12 }

/-- A world whose allocator grants every request; fresh memory holds 0xAA. -/
def world0 : World :=
  { errno := 0, trace := [], nalloc := 0, heap := fun _ _ => none, junk := fun _ => 170,
    freeErrno := none }

/-- A world whose allocator refuses every request with errno 12. -/
def worldNoMem : World := { world0 with heap := fun _ _ => some 12 }

/-- A world whose allocator grants the first request and refuses the second. -/
def worldNoTrim : World :=
  { world0 with heap := fun i _ => if i = 1 then some 12 else none }

/-- A world whose allocator refuses the first request, the initial `malloc`, with
errno 12 and grants every later one, so that no `realloc` is ever refused. -/
def worldNoMalloc : World :=
  { world0 with heap := fun i _ => if i = 0 then some 12 else none }

/-- A world in which `free` leaves errno 99 behind. -/
def worldFree : World := { world0 with freeErrno := some 99 }

/-- A pipe that still delivers `d`: not a regular file, position unknown (errno 29). -/
def pipeOf (d : List Byte) : FILE :=
  { stat := .ok { isreg := false, st_size := 0 }, tell := .error 29, data := d, fail := none,
    error := false, close := none }

/-- A regular file at position 0 whose metadata says `size` bytes and that still
delivers `d`. -/
def regOf (size : Int) (d : List Byte) : FILE :=
  { stat := .ok { isreg := true, st_size := size }, tell := .ok 0, data := d, fail := none,
    error := false, close := none }

/-- A regular file of two bytes by its metadata that delivers three bytes and then
fails with errno 5; closing it fails with errno 9. -/
def badFile : FILE := { regOf 2 [1, 2, 3] with fail := some 5, close := some 9 }

/-- A regular file of three bytes that reads well and whose close fails with errno 28. -/
def badClose : FILE := { regOf 3 [1, 2, 3] with close := some 28 }

/-- Loop state of `fread_file` on `badFile` in `worldFree` before the first pass. -/
def badFileStart : LoopState :=
  { buf := fresh worldFree 3, alloc := 3, size := 0, stream := badFile,
    world := { worldFree with trace := [.fstat, .ftello, .malloc 3], nalloc := 1 } }

/-- Loop state of `fread_file` on `badFile` in `worldFree` after one full pass. -/
def badFileLater : LoopState :=
  { buf := [1, 2, 3, 170], alloc := 4, size := 3, stream := { badFile with data := [] },
    world := { worldFree with
      trace := [.fstat, .ftello, .malloc 3, .fread 3, .realloc 4], nalloc := 2 } }

/-- A file system in which every path opens `badClose`. -/
def fsBadClose : String → String → Except Int FILE := fun _ _ => .ok badClose

/-- A file system in which every path opens `badFile`. -/
def fsBadFile : String → String → Except Int FILE := fun _ _ => .ok badFile

/-- A file system in which no path can be opened (errno 2). -/
def fsNone : String → String → Except Int FILE := fun _ _ => .error 2

/-- Loop states in which the next read asks for at least one byte: the invariant
shape, the logical size below the capacity, and a capacity of at least 2. -/
def LoopState.Live (P : Platform) (st : LoopState) : Prop :=
  st.Inv P ∧ st.size < st.alloc ∧ 2 ≤ st.alloc

/-- A regular file on the 32-bit platform whose metadata says `SIZE_MAX - 1` bytes and
that delivers `SIZE_MAX` bytes: it grew by one byte after the metadata query. -/
def hugeFile : FILE := regOf 4294967294 (List.replicate 4294967295 0)

/-- Loop state of `fread_file` on `hugeFile` in `world0` before the first pass. -/
def hugeFileStart : LoopState :=
  { buf := fresh ((world0.log .fstat).log .ftello) 4294967295, alloc := 4294967295, size := 0,
    stream := hugeFile,
    world := { world0 with trace := [.fstat, .ftello, .malloc 4294967295], nalloc := 1 } }

/-- The `fread` call made by the pass of the loop that starts in `st`: the bytes it
delivers, the stream and the world after it. -/
def LoopState.read (P : Platform) (st : LoopState) : List Byte × FILE × World :=
  fread st.stream (size_sub P st.alloc st.size) st.world

/-- Loop state of `fread_file` on `regOf 8 [1, 2, 3]` in `worldNoTrim` before the
first pass. -/
def truncStart : LoopState :=
  { buf := fresh worldNoTrim 9, alloc := 9, size := 0, stream := regOf 8 [1, 2, 3],
    world := { worldNoTrim with trace := [.fstat, .ftello, .malloc 9], nalloc := 1 } }

/-- Loop state of `fread_file` on `regOf 2 [1, 2, 3]` in `worldNoTrim` before the
first pass. -/
def grownStart : LoopState :=
  { buf := fresh worldNoTrim 3, alloc := 3, size := 0, stream := regOf 2 [1, 2, 3],
    world := { worldNoTrim with trace := [.fstat, .ftello, .malloc 3], nalloc := 1 } }

/-- Loop state of `fread_file` on `regOf 2 [1, 2, 3, 4, 5, 6]` in `world0` before the
first pass. -/
def growStart : LoopState :=
  { buf := fresh world0 3, alloc := 3, size := 0, stream := regOf 2 [1, 2, 3, 4, 5, 6],
    world := { world0 with trace := [.fstat, .ftello, .malloc 3], nalloc := 1 } }

/-- Loop state of `fread_file` on `regOf 2 [1, 2, 3, 4, 5, 6]` in `world0` after two
full passes. -/
def growLater : LoopState :=
  { buf := [1, 2, 3, 4, 170, 170], alloc := 6, size := 4, stream := regOf 2 [5, 6],
    world := { world0 with
      trace := [.fstat, .ftello, .malloc 3, .fread 3, .realloc 4, .fread 1, .realloc 6],
      nalloc := 3 } }

set_option maxRecDepth 100000

/-! ## Arithmetic in `size_t` -/

theorem size_t_eq (P : Platform) {n : Nat} (h : n ≤ P.SIZE_MAX) : size_t P n = n := by
  unfold size_t; exact Nat.mod_eq_of_lt (by omega)

theorem size_t_le (P : Platform) (n : Nat) : size_t P n ≤ P.SIZE_MAX := by
  unfold size_t
  have := Nat.mod_lt n (show 0 < P.SIZE_MAX + 1 by omega)
  omega

theorem size_add_eq (P : Platform) {a b : Nat} (h : a + b ≤ P.SIZE_MAX) :
    size_add P a b = a + b := by
  unfold size_add; exact Nat.mod_eq_of_lt (by omega)

theorem size_sub_eq (P : Platform) {a b : Nat} (hb : b ≤ a) (ha : a ≤ P.SIZE_MAX) :
    size_sub P a b = a - b := by
  unfold size_sub
  rw [Nat.mod_eq_of_lt (show a < P.SIZE_MAX + 1 by omega),
    Nat.mod_eq_of_lt (show b < P.SIZE_MAX + 1 by omega)]
  rw [show a + (P.SIZE_MAX + 1) - b = (a - b) + (P.SIZE_MAX + 1) by omega]
  rw [Nat.add_mod_right]
  exact Nat.mod_eq_of_lt (by omega)

/-! ## The library model -/

theorem fread_length_le (s : FILE) (requested : Nat) (w : World) :
    (fread s requested w).1.length ≤ requested := by
  unfold fread
  split
  · simp
  · split <;> simp <;> omega

theorem store_length (buf : List Byte) (off : Nat) (bytes : List Byte)
    (h : off + bytes.length ≤ buf.length) : (store buf off bytes).length = buf.length := by
  unfold store
  simp
  omega

theorem fresh_length (w : World) (n : Nat) : (fresh w n).length = n := by
  simp [fresh]

theorem realloc_length (buf : List Byte) (n : Nat) (w : World) (b : List Byte) (w1 : World)
    (h : realloc buf n w = (some b, w1)) : b.length = n := by
  unfold realloc at h
  split at h
  · simp at h
    rw [← h.1]
    simp [fresh_length]
    omega
  · simp at h

theorem malloc_length (n : Nat) (w : World) (b : List Byte) (w1 : World)
    (h : malloc n w = (some b, w1)) : b.length = n := by
  unfold malloc at h
  split at h
  · simp at h
    rw [← h.1]
    exact fresh_length w n
  · simp at h

theorem next_alloc_eq (P : Platform) (a : Nat) (ha : a ≤ P.SIZE_MAX) :
    next_alloc P a = min (a + a / 2) P.SIZE_MAX := by
  have h2 : a / 2 ≤ P.SIZE_MAX := by omega
  unfold next_alloc
  rw [size_sub_eq P h2 (le_refl _)]
  split
  · rw [size_add_eq P (by omega)]
    omega
  · omega

theorem grow_bounds (P : Platform) (a : Nat) (ha : a ≤ P.SIZE_MAX) :
    a ≤ next_alloc P a ∧ next_alloc P a ≤ P.SIZE_MAX := by
  rw [next_alloc_eq P a ha]
  omega

theorem loop_body_next_inv (P : Platform) (st st1 : LoopState) (hinv : st.Inv P)
    (h : loop_body P st = .next st1) : st1.Inv P := by
  obtain ⟨hlen, hsz, hmax⟩ := hinv
  have hcnt := fread_length_le st.stream (size_sub P st.alloc st.size) st.world
  unfold loop_body at h
  rcases hfr : fread st.stream (size_sub P st.alloc st.size) st.world with ⟨bytes, s1, w1⟩
  rw [hfr] at hcnt
  simp only [hfr] at h
  rw [size_sub_eq P hsz hmax] at h hcnt
  simp only at hcnt
  split at h
  · split at h <;> simp at h
  · rename_i heq
    simp only [ne_eq, not_not] at heq
    split at h
    · simp at h
    · split at h
      · simp at h
      · rename_i new_buf w2 hre
        simp only [Step.next.injEq] at h
        subst h
        have hg := grow_bounds P st.alloc hmax
        refine ⟨realloc_length _ _ _ _ _ hre, ?_, hg.2⟩
        simp only
        rw [size_add_eq P (by omega)]
        omega

theorem set_zero_spec (buf : List Byte) (n : Nat) (h : n < buf.length) :
    n + 1 ≤ (buf.set n 0).length ∧ (buf.set n 0)[n]? = some 0 := by
  constructor
  · simp; omega
  · simp [List.getElem?_set, h]

theorem loop_body_done_term (P : Platform) (st : LoopState) (buf : List Byte) (len : Nat)
    (s : FILE) (w : World) (hinv : st.Inv P)
    (h : loop_body P st = .done (some (buf, len), s, w)) :
    len + 1 ≤ buf.length ∧ buf[len]? = some 0 := by
  obtain ⟨hlen, hsz, hmax⟩ := hinv
  have hcnt := fread_length_le st.stream (size_sub P st.alloc st.size) st.world
  unfold loop_body at h
  rcases hfr : fread st.stream (size_sub P st.alloc st.size) st.world with ⟨bytes, s1, w1⟩
  rw [hfr] at hcnt
  simp only [hfr] at h
  rw [size_sub_eq P hsz hmax] at h hcnt
  simp only at hcnt
  split at h
  · rename_i hne
    have hlt : bytes.length < st.alloc - st.size := by omega
    have hsize : size_add P st.size bytes.length = st.size + bytes.length :=
      size_add_eq P (by omega)
    have hst : (store st.buf st.size bytes).length = st.alloc := by
      rw [store_length _ _ _ (by omega), hlen]
    rw [hsize, size_sub_eq P (by omega) hmax] at h
    simp only [ferror] at h
    split at h
    · simp [fread_file_fail] at h
    · split at h
      · rw [size_add_eq P (by omega)] at h
        split at h
        · rename_i smaller w3 hre
          simp only [Step.done.injEq, Prod.mk.injEq, Option.some.injEq] at h
          obtain ⟨⟨hb, hl⟩, -, -⟩ := h
          subst hb hl
          have := realloc_length _ _ _ _ _ hre
          exact set_zero_spec _ _ (by omega)
        · simp only [Step.done.injEq, Prod.mk.injEq, Option.some.injEq] at h
          obtain ⟨⟨hb, hl⟩, -, -⟩ := h
          subst hb hl
          exact set_zero_spec _ _ (by omega)
      · simp only [Step.done.injEq, Prod.mk.injEq, Option.some.injEq] at h
        obtain ⟨⟨hb, hl⟩, -, -⟩ := h
        subst hb hl
        exact set_zero_spec _ _ (by omega)
  · split at h
    · simp [fread_file_fail] at h
    · split at h <;> simp [fread_file_fail] at h

theorem fread_loop_term (P : Platform) (fuel : Nat) (st : LoopState) (buf : List Byte)
    (len : Nat) (s : FILE) (w : World) (hinv : st.Inv P)
    (h : fread_loop P fuel st = some (some (buf, len), s, w)) :
    len + 1 ≤ buf.length ∧ buf[len]? = some 0 := by
  induction fuel generalizing st with
  | zero => simp [fread_loop] at h
  | succ n ih =>
    unfold fread_loop at h
    split at h
    · rename_i r hb
      simp only [Option.some.injEq] at h
      subst h
      exact loop_body_done_term P st buf len s w hinv hb
    · rename_i st1 hb
      exact ih st1 (loop_body_next_inv P st st1 hinv hb) h

theorem fread_file_alloc_le (P : Platform) (s : FILE) (w : World) (alloc : Nat) (w1 : World)
    (h : fread_file_alloc P s w = .ok (alloc, w1)) : alloc ≤ P.SIZE_MAX := by
  unfold fread_file_alloc at h
  split at h
  · split at h
    · simp only at h
      split at h
      · split at h
        · simp at h
        · simp only [Except.ok.injEq, Prod.mk.injEq] at h
          rw [← h.1]; exact size_t_le P _
      · simp only [Except.ok.injEq, Prod.mk.injEq] at h
        rw [← h.1]; exact size_t_le P _
    · simp only [Except.ok.injEq, Prod.mk.injEq] at h
      rw [← h.1]; exact size_t_le P _
  · simp only [Except.ok.injEq, Prod.mk.injEq] at h
    rw [← h.1]; exact size_t_le P _

theorem fread_file_init_inv (P : Platform) (s : FILE) (w : World) (st : LoopState)
    (h : fread_file_init P s w = .ok st) : st.Inv P := by
  unfold fread_file_init at h
  split at h
  · simp at h
  · rename_i alloc w1 ha
    split at h
    · simp at h
    · rename_i b w2 hm
      simp only [Except.ok.injEq] at h
      subst h
      exact ⟨malloc_length _ _ _ _ hm, Nat.zero_le _, fread_file_alloc_le P s w alloc w1 ha⟩

theorem fread_file_term (P : Platform) (fuel : Nat) (s : FILE) (w : World)
    (buf : List Byte) (len : Nat) (s1 : FILE) (w1 : World)
    (h : fread_file P fuel s w = some (some (buf, len), s1, w1)) :
    len + 1 ≤ buf.length ∧ buf[len]? = some 0 := by
  unfold fread_file at h
  split at h
  · rename_i r hi
    simp only [Option.some.injEq] at h
    subst h
    unfold fread_file_init at hi
    split at hi
    · simp at hi
    · split at hi <;> simp at hi
  · rename_i st hi
    exact fread_loop_term P fuel st buf len s1 w1 (fread_file_init_inv P s w st hi) h

theorem take_set_self {α : Type} (l : List α) (n : Nat) (a : α) :
    (l.set n a).take n = l.take n := by
  apply List.ext_getElem?
  intro i
  simp only [List.getElem?_take, List.getElem?_set]
  split
  · rw [if_neg (by omega)]
  · rfl

theorem set_last_eq {α : Type} (l : List α) (n : Nat) (a : α) (h : l.length = n + 1) :
    l.set n a = l.take n ++ [a] := by
  apply List.ext_getElem?
  intro i
  simp only [List.getElem?_set, List.getElem?_append, List.getElem?_take, List.length_take]
  by_cases h1 : n = i
  · subst h1
    simp [h]
  · simp only [h1, if_false]
    by_cases h2 : i < n
    · simp [h2, h]
    · have : l.length ≤ i := by omega
      simp [h2, h, List.getElem?_eq_none this]
      cases hh : i - n with
      | zero => omega
      | succ k => simp

theorem take_succ_set {α : Type} (l : List α) (n : Nat) (a : α) (h : n < l.length) :
    (l.take (n + 1)).set n a = l.take n ++ [a] := by
  rw [set_last_eq _ n a (by simp; omega)]
  simp [List.take_take]

theorem store_take (buf : List Byte) (off : Nat) (bytes : List Byte) (h : off ≤ buf.length) :
    (store buf off bytes).take (off + bytes.length) = buf.take off ++ bytes := by
  unfold store
  rw [List.take_append_eq_append_take]
  simp [List.take_of_length_le, Nat.min_eq_left h]

theorem realloc_ok (buf : List Byte) (n : Nat) (w : World) (h : ∀ i m, w.heap i m = none) :
    realloc buf n w = (some ((buf ++ fresh w (n - buf.length)).take n),
      { w.log (.realloc n) with nalloc := w.nalloc + 1 }) := by
  unfold realloc
  simp [h w.nalloc n]

theorem realloc_some (buf : List Byte) (n : Nat) (w : World) (b : List Byte) (w1 : World)
    (h : realloc buf n w = (some b, w1)) : b = (buf ++ fresh w (n - buf.length)).take n := by
  unfold realloc at h
  split at h
  · simp only [Prod.mk.injEq, Option.some.injEq] at h
    exact h.1.symm
  · simp at h

theorem loop_body_eof (P : Platform) (st : LoopState) (hinv : st.Inv P)
    (hfail : st.stream.fail = none) (herr : st.stream.error = false)
    (hshort : st.stream.data.length < st.alloc - st.size) :
    ∃ buf w1, loop_body P st = .done (some (buf, st.size + st.stream.data.length),
        { st.stream with data := [] }, w1)
      ∧ buf.take (st.size + st.stream.data.length) = st.buf.take st.size ++ st.stream.data
      ∧ ((∀ i n, st.world.heap i n = none) →
          buf = st.buf.take st.size ++ st.stream.data ++ [0]) := by
  obtain ⟨hlen, hsz, hmax⟩ := hinv
  have hst : (store st.buf st.size st.stream.data).length = st.alloc := by
    rw [store_length _ _ _ (by omega), hlen]
  have htk := store_take st.buf st.size st.stream.data (by omega)
  unfold loop_body
  rw [size_sub_eq P hsz hmax]
  have hfr : fread st.stream (st.alloc - st.size) st.world
      = (st.stream.data, { st.stream with data := [] },
          st.world.log (.fread (st.alloc - st.size))) := by
    unfold fread
    rw [if_neg (by omega)]
    simp [hfail]
  simp only [hfr]
  rw [if_pos (by omega), size_add_eq P (by omega), size_sub_eq P (by omega) hmax]
  simp only [ferror, herr]
  by_cases htrim : st.size + st.stream.data.length < st.alloc - 1
  · rw [if_pos htrim, size_add_eq P (by omega)]
    simp only [Bool.false_eq_true, if_false]
    rcases hre : realloc (store st.buf st.size st.stream.data)
        (st.size + st.stream.data.length + 1)
        ((st.world.log (.fread (st.alloc - st.size))).log .ferror) with ⟨ob, w3⟩
    cases ob with
    | none =>
      refine ⟨_, _, rfl, ?_, ?_⟩
      · rw [take_set_self, htk]
      · intro hall
        rw [realloc_ok _ _ _ (fun i m => by simpa [World.log] using hall i m)] at hre
        simp at hre
    | some b =>
      have hb := realloc_some _ _ _ _ _ hre
      subst hb
      refine ⟨_, _, rfl, ?_, ?_⟩
      · rw [take_set_self, List.take_take, Nat.min_eq_left (by omega),
          List.take_append_of_le_length (by omega), htk]
      · intro _
        rw [show st.size + st.stream.data.length + 1
              - (store st.buf st.size st.stream.data).length = 0 by omega]
        simp only [fresh, List.range_zero, List.map_nil, List.append_nil]
        rw [take_succ_set _ _ _ (by omega), htk]
  · rw [if_neg htrim]
    simp only [Bool.false_eq_true, if_false]
    refine ⟨_, _, rfl, ?_, ?_⟩
    · rw [take_set_self, htk]
    · intro _
      rw [set_last_eq _ _ _ (by omega), htk]

theorem loop_body_grow (P : Platform) (st : LoopState) (hinv : st.Inv P)
    (hfull : st.alloc - st.size ≤ st.stream.data.length) (hne : st.alloc ≠ P.SIZE_MAX)
    (hheap : ∀ i n, st.world.heap i n = none) :
    ∃ st1, loop_body P st = .next st1 ∧ st1.size = st.alloc
      ∧ st1.alloc = next_alloc P st.alloc
      ∧ st1.stream = { st.stream with data := st.stream.data.drop (st.alloc - st.size) }
      ∧ st1.buf.take st.alloc
          = st.buf.take st.size ++ st.stream.data.take (st.alloc - st.size)
      ∧ st1.world.heap = st.world.heap := by
  obtain ⟨hlen, hsz, hmax⟩ := hinv
  have hg := grow_bounds P st.alloc hmax
  have hfr : fread st.stream (st.alloc - st.size) st.world
      = (st.stream.data.take (st.alloc - st.size),
          { st.stream with data := st.stream.data.drop (st.alloc - st.size) },
          st.world.log (.fread (st.alloc - st.size))) := by
    unfold fread
    rw [if_pos hfull]
  have hcount : (st.stream.data.take (st.alloc - st.size)).length = st.alloc - st.size := by
    simp [hfull]
  have htk := store_take st.buf st.size (st.stream.data.take (st.alloc - st.size)) (by omega)
  have hst : (store st.buf st.size (st.stream.data.take (st.alloc - st.size))).length
      = st.alloc := by
    rw [store_length _ _ _ (by omega), hlen]
  rw [hcount] at htk
  unfold loop_body
  rw [size_sub_eq P hsz hmax]
  simp only [hfr]
  rw [hcount, if_neg (by simp), if_neg hne, size_add_eq P (by omega)]
  rw [realloc_ok _ _ _ (fun i m => by simpa [World.log] using hheap i m)]
  refine ⟨_, rfl, by simp only; omega, rfl, rfl, ?_, by simp [World.log]⟩
  simp only
  rw [List.take_take, Nat.min_eq_left (by omega), List.take_append_of_le_length (by omega)]
  rw [show st.alloc = st.size + (st.alloc - st.size) by omega] at htk ⊢
  simpa using htk

theorem next_alloc_gt (P : Platform) (a : Nat) (h2 : 2 ≤ a) (ha : a < P.SIZE_MAX) :
    a < next_alloc P a := by
  rw [next_alloc_eq P a (by omega)]
  omega

theorem fread_loop_eof (P : Platform) (fuel : Nat) (st : LoopState) (hinv : st.Inv P)
    (hsize : st.size < st.alloc) (h2 : 2 ≤ st.alloc)
    (hfail : st.stream.fail = none) (herr : st.stream.error = false)
    (hheap : ∀ i n, st.world.heap i n = none)
    (hN : st.size + st.stream.data.length < P.SIZE_MAX)
    (hfuel : st.stream.data.length + 1 ≤ fuel) :
    ∃ s1 w1, fread_loop P fuel st
        = some (some (st.buf.take st.size ++ st.stream.data ++ [0],
            st.size + st.stream.data.length), s1, w1)
      ∧ s1.data = [] := by
  induction fuel generalizing st with
  | zero => omega
  | succ n ih =>
    unfold fread_loop
    by_cases hshort : st.stream.data.length < st.alloc - st.size
    · obtain ⟨buf, w1, hb, -, hbuf⟩ := loop_body_eof P st hinv hfail herr hshort
      rw [hb, hbuf hheap]
      exact ⟨_, _, rfl, rfl⟩
    · have hmax := hinv.2.2
      obtain ⟨st1, hb, hs1, ha1, hst1, hbuf1, hw1⟩ :=
        loop_body_grow P st hinv (by omega) (by omega) hheap
      have hinv1 := loop_body_next_inv P st st1 hinv hb
      have hgt := next_alloc_gt P st.alloc h2 (by omega)
      have hd : st1.stream.data.length = st.stream.data.length - (st.alloc - st.size) := by
        rw [hst1]; simp
      rw [hb]
      simp only
      obtain ⟨s2, w2, hr, hs2⟩ := ih st1 hinv1 (by omega) (by omega)
        (by rw [hst1]; exact hfail) (by rw [hst1]; exact herr)
        (by rw [hw1]; exact hheap) (by omega) (by omega)
      refine ⟨s2, w2, ?_, hs2⟩
      rw [hr, hs1, hbuf1, hd, hst1]
      simp only [List.append_assoc, List.take_append_drop]
      rw [show st.alloc + (st.stream.data.length - (st.alloc - st.size))
          = st.size + st.stream.data.length by omega]

theorem size_hint_pos (s : FILE) (h : Int) (hs : size_hint s = some h) : 0 < h := by
  unfold size_hint at hs
  split at hs
  · split at hs
    · simp only [Option.some.injEq] at hs
      omega
    · simp at hs
  · simp at hs

theorem fread_file_alloc_eq (P : Platform) (s : FILE) (w : World) :
    fread_file_alloc P s w =
      match s.stat with
      | .error e => .ok (size_t P P.BUFSIZ, { w.log .fstat with errno := e })
      | .ok st =>
        if st.isreg = true then
          match s.tell with
          | .error e =>
            .ok (size_t P P.BUFSIZ, { (w.log .fstat).log .ftello with errno := e })
          | .ok pos =>
            if (pos : Int) < st.st_size then
              if (P.SIZE_MAX : Int) - 1 < st.st_size - pos then
                .error { (w.log .fstat).log .ftello with errno := P.ENOMEM }
              else .ok (size_t P (st.st_size - pos + 1).toNat, (w.log .fstat).log .ftello)
            else .ok (size_t P P.BUFSIZ, (w.log .fstat).log .ftello)
        else .ok (size_t P P.BUFSIZ, w.log .fstat) := by
  unfold fread_file_alloc fstat ftello
  cases hst : s.stat with
  | error e => rfl
  | ok st =>
    simp only
    by_cases hi : st.isreg = true
    · simp only [hi, if_true]
      cases htl : s.tell with
      | error e => simp
      | ok pos =>
        simp only
        by_cases hp : (pos : Int) < st.st_size
        · rw [if_pos ⟨by omega, hp⟩, if_pos hp]
        · rw [if_neg (fun hc => hp hc.2), if_neg hp]
    · simp only [hi, if_false]
      simp

theorem fread_file_alloc_world (P : Platform) (s : FILE) (w : World) (alloc : Nat)
    (w1 : World) (h : fread_file_alloc P s w = .ok (alloc, w1)) :
    w1.heap = w.heap ∧ w1.nalloc = w.nalloc := by
  rw [fread_file_alloc_eq] at h
  split at h
  · simp only [Except.ok.injEq, Prod.mk.injEq] at h
    rw [← h.2]
    exact ⟨rfl, rfl⟩
  · split at h
    · split at h
      · simp only [Except.ok.injEq, Prod.mk.injEq] at h
        rw [← h.2]
        exact ⟨rfl, rfl⟩
      · split at h
        · split at h
          · simp at h
          · simp only [Except.ok.injEq, Prod.mk.injEq] at h
            rw [← h.2]
            exact ⟨rfl, rfl⟩
        · simp only [Except.ok.injEq, Prod.mk.injEq] at h
          rw [← h.2]
          exact ⟨rfl, rfl⟩
    · simp only [Except.ok.injEq, Prod.mk.injEq] at h
      rw [← h.2]
      exact ⟨rfl, rfl⟩

theorem fread_file_alloc_hint (P : Platform) (s : FILE) (w : World) (h : Int)
    (hs : size_hint s = some h) (hfit : h ≤ (P.SIZE_MAX : Int) - 1) :
    ∃ w1, fread_file_alloc P s w = .ok ((h + 1).toNat, w1) := by
  rw [fread_file_alloc_eq]
  unfold size_hint at hs
  split at hs
  · rename_i st pos hst htl
    split at hs
    · rename_i hc
      simp only [Option.some.injEq] at hs
      subst hs
      simp only [hst, htl, hc.1, hc.2, if_true]
      rw [if_neg (by omega), size_t_eq P (by omega)]
      exact ⟨_, rfl⟩
    · simp at hs
  · simp at hs

theorem fread_file_alloc_big (P : Platform) (s : FILE) (w : World) (h : Int)
    (hs : size_hint s = some h) (hbig : (P.SIZE_MAX : Int) - 1 < h) :
    fread_file_alloc P s w
      = .error { (w.log .fstat).log .ftello with errno := P.ENOMEM } := by
  rw [fread_file_alloc_eq]
  unfold size_hint at hs
  split at hs
  · rename_i st pos hst htl
    split at hs
    · rename_i hc
      simp only [Option.some.injEq] at hs
      subst hs
      simp only [hst, htl, hc.1, hc.2, if_true]
      rw [if_pos hbig]
    · simp at hs
  · simp at hs

theorem fread_file_alloc_default (P : Platform) (s : FILE) (w : World)
    (hs : size_hint s = none) :
    ∃ w1, fread_file_alloc P s w = .ok (size_t P P.BUFSIZ, w1) := by
  rw [fread_file_alloc_eq]
  unfold size_hint at hs
  cases hst : s.stat with
  | error e => exact ⟨_, rfl⟩
  | ok st =>
    simp only
    by_cases hi : st.isreg = true
    · simp only [hi, if_true]
      cases htl : s.tell with
      | error e => exact ⟨_, rfl⟩
      | ok pos =>
        simp only [hst, htl, hi, true_and] at hs
        split at hs
        · simp at hs
        · rename_i hc
          simp only
          rw [if_neg hc]
          exact ⟨_, rfl⟩
    · simp only [hi, if_false]
      exact ⟨_, rfl⟩

theorem malloc_ok (n : Nat) (w : World) (h : w.heap w.nalloc n = none) :
    malloc n w = (some (fresh w n), { w.log (.malloc n) with nalloc := w.nalloc + 1 }) := by
  unfold malloc
  simp [h]

theorem fread_file_init_of_alloc (P : Platform) (s : FILE) (w : World) (a : Nat) (w1 : World)
    (ha : fread_file_alloc P s w = .ok (a, w1)) (hm : w.heap w.nalloc a = none) :
    ∃ st, fread_file_init P s w = .ok st ∧ st.stream = s ∧ st.size = 0 ∧ st.alloc = a
      ∧ st.world.heap = w.heap := by
  obtain ⟨hh, hn⟩ := fread_file_alloc_world P s w a w1 ha
  unfold fread_file_init
  rw [ha]
  simp only
  rw [malloc_ok a w1 (by rw [hh, hn]; exact hm)]
  exact ⟨_, rfl, rfl, rfl, rfl, by simp [World.log, hh]⟩

theorem fread_file_alloc_ok (P : Platform) (s : FILE) (w : World)
    (hB : 2 ≤ P.BUFSIZ) (hB1 : P.BUFSIZ ≤ P.SIZE_MAX)
    (hhint : ∀ h, size_hint s = some h → h ≤ (P.SIZE_MAX : Int) - 1) :
    ∃ a w1, fread_file_alloc P s w = .ok (a, w1) ∧ 2 ≤ a := by
  cases hs : size_hint s with
  | none =>
    obtain ⟨w1, h1⟩ := fread_file_alloc_default P s w hs
    rw [size_t_eq P hB1] at h1
    exact ⟨_, _, h1, hB⟩
  | some h =>
    obtain ⟨w1, h1⟩ := fread_file_alloc_hint P s w h hs (hhint h hs)
    have := size_hint_pos s h hs
    exact ⟨_, _, h1, by omega⟩

/-- A stream that ends in end-of-file is read whole when no allocation request fails:
the general statement, from the initial capacity on. -/

theorem fread_file_eof_of_alloc (P : Platform) (fuel : Nat) (s : FILE) (w : World)
    (a : Nat) (w1 : World) (ha : fread_file_alloc P s w = .ok (a, w1)) (h2 : 2 ≤ a)
    (hfail : s.fail = none) (herr : s.error = false)
    (hheap : ∀ i n, w.heap i n = none)
    (hN : s.data.length + 1 ≤ P.SIZE_MAX)
    (hfuel : s.data.length + 1 ≤ fuel) :
    ∃ s1 w2, fread_file P fuel s w = some (some (s.data ++ [0], s.data.length), s1, w2)
      ∧ s1.data = [] := by
  obtain ⟨st, hi, hs, hz, hal, hw⟩ := fread_file_init_of_alloc P s w a w1 ha (hheap _ _)
  have hinv := fread_file_init_inv P s w st hi
  unfold fread_file
  rw [hi]
  simp only
  obtain ⟨s2, w2, hr, hd⟩ := fread_loop_eof P fuel st hinv (by omega) (by omega)
    (by rw [hs]; exact hfail) (by rw [hs]; exact herr) (by rw [hw]; exact hheap)
    (by rw [hs, hz]; omega) (by rw [hs]; exact hfuel)
  refine ⟨s2, w2, ?_, hd⟩
  rw [hr, hs, hz]
  simp

/-- The same, with the initial capacity taken from a size hint within the overflow
guard or from `BUFSIZ`. -/

theorem fread_file_eof_all (P : Platform) (fuel : Nat) (s : FILE) (w : World)
    (hB : 2 ≤ P.BUFSIZ) (hB1 : P.BUFSIZ ≤ P.SIZE_MAX)
    (hfail : s.fail = none) (herr : s.error = false)
    (hheap : ∀ i n, w.heap i n = none)
    (hN : s.data.length + 1 ≤ P.SIZE_MAX)
    (hhint : ∀ h, size_hint s = some h → h ≤ (P.SIZE_MAX : Int) - 1)
    (hfuel : s.data.length + 1 ≤ fuel) :
    ∃ s1 w1, fread_file P fuel s w = some (some (s.data ++ [0], s.data.length), s1, w1)
      ∧ s1.data = [] := by
  obtain ⟨a, w1, ha, h2⟩ := fread_file_alloc_ok P s w hB hB1 hhint
  exact fread_file_eof_of_alloc P fuel s w a w1 ha h2 hfail herr hheap hN hfuel

/-- A stream that ends in end-of-file before the capacity taken from the size hint is
used up is returned after one pass, whatever the trimming reallocation does. -/

theorem fread_file_eof_short (P : Platform) (fuel : Nat) (s : FILE) (w : World) (N : Int)
    (hs : size_hint s = some N) (hfit : N ≤ (P.SIZE_MAX : Int) - 1)
    (hM : (s.data.length : Int) < N)
    (hfail : s.fail = none) (herr : s.error = false)
    (hmalloc : w.heap w.nalloc (N + 1).toNat = none)
    (hfuel : 1 ≤ fuel) :
    ∃ buf s1 w1, fread_file P fuel s w = some (some (buf, s.data.length), s1, w1)
      ∧ buf.take s.data.length = s.data ∧ s1.data = [] := by
  obtain ⟨w1, ha⟩ := fread_file_alloc_hint P s w N hs hfit
  obtain ⟨st, hi, hst, hz, hal, -⟩ := fread_file_init_of_alloc P s w _ w1 ha hmalloc
  have hinv := fread_file_init_inv P s w st hi
  unfold fread_file
  rw [hi]
  obtain ⟨n, rfl⟩ : ∃ n, fuel = n + 1 := ⟨fuel - 1, by omega⟩
  simp only
  unfold fread_loop
  obtain ⟨buf, w2, hb, htk, -⟩ := loop_body_eof P st hinv (by rw [hst]; exact hfail)
    (by rw [hst]; exact herr) (by rw [hst, hz, hal]; omega)
  rw [hb]
  simp only [hst, hz, Nat.zero_add, List.take_zero, List.nil_append] at htk ⊢
  exact ⟨buf, _, w2, rfl, htk, rfl⟩

theorem free_trace (w : World) : (free w).trace = w.trace ++ [.free] := by
  unfold free
  split <;> rfl

theorem fread_loop_iter (P : Platform) (n k : Nat) (st0 st : LoopState)
    (h : loop_iter P n st0 = some st) :
    fread_loop P (n + k) st0 = fread_loop P k st := by
  induction n generalizing st0 with
  | zero =>
    simp only [loop_iter, Option.some.injEq] at h
    subst h
    simp
  | succ m ih =>
    unfold loop_iter at h
    rw [show m + 1 + k = (m + k) + 1 by omega]
    split at h
    · simp at h
    · rename_i st1 hb
      simp only [fread_loop, hb]
      exact ih st1 h

theorem loop_body_error (P : Platform) (st : LoopState)
    (hshort : (fread st.stream (size_sub P st.alloc st.size) st.world).1.length
      ≠ size_sub P st.alloc st.size)
    (herr : (fread st.stream (size_sub P st.alloc st.size) st.world).2.1.error = true) :
    ∃ s1 w1, loop_body P st = .done (none, s1, w1)
      ∧ w1.errno = (fread st.stream (size_sub P st.alloc st.size) st.world).2.2.errno := by
  unfold loop_body
  rcases hfr : fread st.stream (size_sub P st.alloc st.size) st.world with ⟨bytes, s1, w1⟩
  rw [hfr] at hshort herr
  simp only at hshort herr
  simp only [hfr]
  rw [if_pos hshort]
  simp only [ferror, herr, if_true, fread_file_fail]
  exact ⟨_, _, rfl, rfl⟩

/-! ## The claims -/

/-- Claim C1, as stated, fails on the 32-bit platform at a regular file whose metadata
says 2^32 bytes and that delivers 3 bytes and then end-of-file without error: `N` is
3, `N + 1 <= SIZE_MAX`, and no allocation is refused (none is requested), yet the
overflow guard on the size hint returns `NULL` with errno `ENOMEM` right after `fstat`
and `ftello`. -/
theorem fread_file_reads_all_counterexample :
    ((regOf 4294967296 [1, 2, 3]).data.length = 3
      ∧ (regOf 4294967296 [1, 2, 3]).fail = none
      ∧ (regOf 4294967296 [1, 2, 3]).error = false
      ∧ (regOf 4294967296 [1, 2, 3]).data.length + 1 ≤ ilp32.SIZE_MAX)
    ∧ (fread_file ilp32 4 (regOf 4294967296 [1, 2, 3]) world0).map
        (fun r => (r.1, r.2.2.errno, r.2.2.trace)) = some (none, 12, [.fstat, .ftello]) := by
  decide

/-- Claim C1, amended: a stream that delivers exactly `N` more bytes and then
end-of-file, with its error indicator clear, and whose size hint, when the metadata
gives one, is at most `SIZE_MAX - 1`, is read whole for every `N` with
`N + 1 <= SIZE_MAX`, whatever the relation of `N` to `BUFSIZ`, when every allocation
request succeeds: `fread_file` leaves the loop within `N + 1` passes and returns a
buffer whose bytes `[0, N)` are the bytes of the stream in order, followed by the
terminator; `*length` is `N`; the stream has nothing left to deliver. `BUFSIZ` is at
least 2 and fits in `size_t`. -/
theorem fread_file_reads_all (P : Platform) (fuel : Nat) (s : FILE) (w : World)
    (hB : 2 ≤ P.BUFSIZ) (hB1 : P.BUFSIZ ≤ P.SIZE_MAX)
    (hfail : s.fail = none) (herr : s.error = false)
    (hheap : ∀ i n, w.heap i n = none)
    (hN : s.data.length + 1 ≤ P.SIZE_MAX)
    (hhint : ∀ h, size_hint s = some h → h ≤ (P.SIZE_MAX : Int) - 1)
    (hfuel : s.data.length + 1 ≤ fuel) :
    ∃ buf s1 w1, fread_file P fuel s w = some (some (buf, s.data.length), s1, w1)
      ∧ buf.take s.data.length = s.data ∧ buf = s.data ++ [0] ∧ s1.data = [] := by
  obtain ⟨s1, w1, h, hd⟩ :=
    fread_file_eof_all P fuel s w hB hB1 hfail herr hheap hN hhint hfuel
  exact ⟨_, s1, w1, h, by simp, rfl, hd⟩

/-- Claim C1, amended, at a pipe that delivers `BUFSIZ + 1` bytes on the 64-bit
platform. -/
theorem fread_file_reads_all_witness :
    ∃ buf s1 w1,
      fread_file lp64 1026 (pipeOf (List.replicate 1025 7)) world0
        = some (some (buf, (pipeOf (List.replicate 1025 7)).data.length), s1, w1)
      ∧ buf.take (pipeOf (List.replicate 1025 7)).data.length
          = (pipeOf (List.replicate 1025 7)).data
      ∧ buf = (pipeOf (List.replicate 1025 7)).data ++ [0] ∧ s1.data = [] :=
  fread_file_reads_all lp64 1026 (pipeOf (List.replicate 1025 7)) world0
    (by decide) (by decide) rfl rfl (fun _ _ => rfl)
    (by simp [pipeOf, lp64]) (fun h hh => by simp [size_hint, pipeOf] at hh)
    (by simp [pipeOf])

/-- Claim C2: whenever `fread_file` returns a buffer, the buffer has at least
`*length + 1` bytes and the byte at index `*length` is the zero terminator, which
`*length` does not count. -/
theorem fread_file_zero_terminated (P : Platform) (fuel : Nat) (s : FILE) (w : World)
    (buf : List Byte) (len : Nat) (s1 : FILE) (w1 : World)
    (h : fread_file P fuel s w = some (some (buf, len), s1, w1)) :
    len + 1 ≤ buf.length ∧ buf[len]? = some 0 :=
  fread_file_term P fuel s w buf len s1 w1 h

/-- Claim C2 at a regular file of three bytes. -/
theorem fread_file_zero_terminated_witness :
    (fread_file lp64 4 (regOf 3 [1, 2, 3]) world0).map Prod.fst
        = some (some ([1, 2, 3, 0], 3))
    ∧ 3 + 1 ≤ ([1, 2, 3, 0] : List Byte).length
    ∧ ([1, 2, 3, 0] : List Byte)[3]? = some 0 :=
  ⟨by decide,
    fread_file_zero_terminated lp64 4 (regOf 3 [1, 2, 3]) world0 [1, 2, 3, 0] 3
      { regOf 3 [1, 2, 3] with data := [] }
      { world0 with trace := [.fstat, .ftello, .malloc 4, .fread 4, .ferror], nalloc := 1 }
      rfl⟩

/-- Claim C3, as stated, fails at a pipe that is already at end-of-file: when `malloc`
fails the call returns `NULL`, and when the trimming `realloc` fails the call returns
the whole block of `BUFSIZ` bytes, not a block of one byte. -/
theorem fread_file_empty_counterexample :
    ((pipeOf []).data = [] ∧ (pipeOf []).fail = none ∧ (pipeOf []).error = false)
    ∧ (fread_file lp64 1 (pipeOf []) worldNoMem).map Prod.fst = some none
    ∧ (fread_file lp64 1 (pipeOf []) worldNoTrim).map
        (fun r => r.1.map (fun b => (b.1.length, b.2))) = some (some (1024, 0)) := by
  decide

/-- Claim C3, amended: a stream already at end-of-file, with its error indicator
clear, gives `*length = 0` and a buffer of exactly one byte, the terminator, provided
the initial allocation and the trimming reallocation succeed (and, as in C1, `BUFSIZ`
is at least 2 and fits in `size_t`, and a size hint passes the overflow guard). -/
theorem fread_file_empty (P : Platform) (fuel : Nat) (s : FILE) (w : World)
    (hB : 2 ≤ P.BUFSIZ) (hB1 : P.BUFSIZ ≤ P.SIZE_MAX)
    (hdata : s.data = []) (hfail : s.fail = none) (herr : s.error = false)
    (hheap : ∀ i n, w.heap i n = none)
    (hhint : ∀ h, size_hint s = some h → h ≤ (P.SIZE_MAX : Int) - 1)
    (hfuel : 1 ≤ fuel) :
    ∃ s1 w1, fread_file P fuel s w = some (some ([0], 0), s1, w1) := by
  obtain ⟨s1, w1, h, -⟩ := fread_file_eof_all P fuel s w hB hB1 hfail herr hheap
    (by rw [hdata]; simp; omega) hhint (by rw [hdata]; simpa using hfuel)
  rw [hdata] at h
  exact ⟨s1, w1, h⟩

/-- Claim C3, amended, at a pipe that is already at end-of-file. -/
theorem fread_file_empty_witness :
    ∃ s1 w1, fread_file lp64 1 (pipeOf []) world0 = some (some ([0], 0), s1, w1) :=
  fread_file_empty lp64 1 (pipeOf []) world0 (by decide) (by decide) rfl rfl rfl
    (fun _ _ => rfl) (fun h hh => by simp [size_hint, pipeOf] at hh) (le_refl 1)

/-- Claim C4, as stated, fails in two ways. A file whose hint says 8 bytes and that
delivers 3 gives `NULL` when the initial `malloc` of 9 bytes fails. On the 32-bit
platform a file whose hint says 2^32 bytes and that delivers 3 gives `NULL` with
errno `ENOMEM` at the overflow guard. -/
theorem fread_file_truncated_counterexample :
    (size_hint (regOf 8 [1, 2, 3]) = some 8 ∧ (regOf 8 [1, 2, 3]).data.length = 3
      ∧ (fread_file lp64 1 (regOf 8 [1, 2, 3]) worldNoMem).map Prod.fst = some none)
    ∧ (size_hint (regOf 4294967296 [1, 2, 3]) = some 4294967296
      ∧ (regOf 4294967296 [1, 2, 3]).data.length = 3
      ∧ (fread_file ilp32 1 (regOf 4294967296 [1, 2, 3]) world0).map
          (fun r => (r.1, r.2.2.errno)) = some (none, 12)) := by
  decide

/-- Claim C4, amended: when the size hint says `N` bytes remain, with
`N + 1 <= SIZE_MAX`, but the stream delivers only `M < N` bytes before end-of-file,
and the initial allocation of `N + 1` bytes succeeds, `fread_file` succeeds with
`*length = M`, not `N`: the buffer holds the `M` bytes in order and the terminator
after them, whether or not the trimming reallocation succeeds. -/
theorem fread_file_truncated (P : Platform) (fuel : Nat) (s : FILE) (w : World) (N : Int)
    (hs : size_hint s = some N) (hfit : N ≤ (P.SIZE_MAX : Int) - 1)
    (hM : (s.data.length : Int) < N)
    (hfail : s.fail = none) (herr : s.error = false)
    (hmalloc : w.heap w.nalloc (N + 1).toNat = none)
    (hfuel : 1 ≤ fuel) :
    ∃ buf s1 w1, fread_file P fuel s w = some (some (buf, s.data.length), s1, w1)
      ∧ buf.take s.data.length = s.data ∧ buf[s.data.length]? = some 0
      ∧ s1.data = [] := by
  obtain ⟨buf, s1, w1, h, htk, hd⟩ :=
    fread_file_eof_short P fuel s w N hs hfit hM hfail herr hmalloc hfuel
  exact ⟨buf, s1, w1, h, htk, (fread_file_term P fuel s w buf _ s1 w1 h).2, hd⟩

/-- Claim C4, amended, at a file whose hint says 8 bytes and that delivers 3, with
the trimming reallocation failing. -/
theorem fread_file_truncated_witness :
    ∃ buf s1 w1,
      fread_file lp64 1 (regOf 8 [1, 2, 3]) worldNoTrim
        = some (some (buf, (regOf 8 [1, 2, 3]).data.length), s1, w1)
      ∧ buf.take (regOf 8 [1, 2, 3]).data.length = (regOf 8 [1, 2, 3]).data
      ∧ buf[(regOf 8 [1, 2, 3]).data.length]? = some 0 ∧ s1.data = [] :=
  fread_file_truncated lp64 1 (regOf 8 [1, 2, 3]) worldNoTrim 8 (by decide) (by decide)
    (by decide) rfl rfl rfl (le_refl 1)

/-- Claim C5, amended: when the size hint says `N` bytes remain but the stream
delivers `K > N` bytes before end-of-file, with `K + 1 <= SIZE_MAX`, and the initial
allocation and every reallocation succeed, `fread_file` succeeds with `*length = K`;
the buffer holds the `K` bytes in order, so the bytes read before each growth are
kept, and the terminator follows them. -/
theorem fread_file_grown (P : Platform) (fuel : Nat) (s : FILE) (w : World) (N : Int)
    (hs : size_hint s = some N) (hK : N < (s.data.length : Int))
    (hfail : s.fail = none) (herr : s.error = false)
    (hheap : ∀ i n, w.heap i n = none)
    (hfit : s.data.length + 1 ≤ P.SIZE_MAX)
    (hfuel : s.data.length + 1 ≤ fuel) :
    ∃ buf s1 w1, fread_file P fuel s w = some (some (buf, s.data.length), s1, w1)
      ∧ buf.take s.data.length = s.data ∧ buf[s.data.length]? = some 0
      ∧ s1.data = [] := by
  obtain ⟨w1, ha⟩ := fread_file_alloc_hint P s w N hs (by omega)
  have hpos := size_hint_pos s N hs
  obtain ⟨s1, w2, h, hd⟩ := fread_file_eof_of_alloc P fuel s w _ w1 ha (by omega)
    hfail herr hheap hfit hfuel
  exact ⟨_, s1, w2, h, by simp, by simp, hd⟩

/-- Claim C5, amended, at a file whose hint says 2 bytes and that delivers 5. -/
theorem fread_file_grown_witness :
    ∃ buf s1 w1,
      fread_file lp64 6 (regOf 2 [1, 2, 3, 4, 5]) world0
        = some (some (buf, (regOf 2 [1, 2, 3, 4, 5]).data.length), s1, w1)
      ∧ buf.take (regOf 2 [1, 2, 3, 4, 5]).data.length = (regOf 2 [1, 2, 3, 4, 5]).data
      ∧ buf[(regOf 2 [1, 2, 3, 4, 5]).data.length]? = some 0 ∧ s1.data = [] :=
  fread_file_grown lp64 6 (regOf 2 [1, 2, 3, 4, 5]) world0 2 (by decide) (by decide)
    rfl rfl (fun _ _ => rfl) (by decide) (by decide)

/-- Claim C6: let the loop of `fread_file` have made `n` full passes, so that any
number of bytes may already have been read. If the read of the next pass returns
fewer bytes than requested and the error indicator of the stream is then set,
`fread_file` returns `NULL`, no buffer, and the errno it leaves is the one that was
in place right after that read. -/
theorem fread_file_read_error (P : Platform) (fuel n : Nat) (s : FILE) (w : World)
    (st0 st : LoopState)
    (hinit : fread_file_init P s w = .ok st0)
    (hreach : loop_iter P n st0 = some st)
    (hshort : (fread st.stream (size_sub P st.alloc st.size) st.world).1.length
      ≠ size_sub P st.alloc st.size)
    (herr : (fread st.stream (size_sub P st.alloc st.size) st.world).2.1.error = true)
    (hfuel : n < fuel) :
    ∃ s1 w1, fread_file P fuel s w = some (none, s1, w1)
      ∧ w1.errno = (fread st.stream (size_sub P st.alloc st.size) st.world).2.2.errno := by
  obtain ⟨k, rfl⟩ : ∃ k, fuel = n + (k + 1) := ⟨fuel - n - 1, by omega⟩
  obtain ⟨s1, w1, hb, he⟩ := loop_body_error P st hshort herr
  unfold fread_file
  rw [hinit]
  simp only
  rw [fread_loop_iter P n (k + 1) st0 st hreach]
  unfold fread_loop
  rw [hb]
  exact ⟨s1, w1, rfl, he⟩

/-- Claim C6 at a file that fails with errno 5 after three bytes, in a world where
`free` overwrites errno with 99: the call returns `NULL` and leaves errno 5. -/
theorem fread_file_read_error_witness :
    ∃ s1 w1, fread_file lp64 2 badFile worldFree = some (none, s1, w1) ∧ w1.errno = 5 :=
  fread_file_read_error lp64 2 1 badFile worldFree badFileStart badFileLater rfl rfl
    (by decide) rfl (by decide)

/-- Claim C7: when the open and the read succeed but `fclose` fails, the
open-and-read call returns `NULL`, the buffer that was read is freed instead of
returned, and the errno left is the one set by `fclose`. The functions `read_file`
and `read_binary_file` are this one at the modes "r" and "rb". -/
theorem internal_read_file_close_error (P : Platform) (fuel : Nat)
    (fs : String → String → Except Int FILE) (filename mode : String) (w : World)
    (s s2 : FILE) (buf : List Byte) (len : Nat) (w2 : World) (e : Int)
    (hopen : fs filename mode = .ok s)
    (hread : fread_file P fuel s (w.log (.fopen filename mode))
      = some (some (buf, len), s2, w2))
    (hclose : s2.close = some e) :
    ∃ w3, internal_read_file P fuel fs filename mode w = some (none, w3)
      ∧ w3.errno = e ∧ w3.trace = w2.trace ++ [.fclose, .free] := by
  unfold internal_read_file fopen
  simp only [hopen, hread, fclose, hclose]
  refine ⟨_, rfl, rfl, ?_⟩
  simp [free_trace, World.log]

/-- Claim C7 at a three-byte file whose close fails with errno 28, in a world where
`free` overwrites errno with 99. -/
theorem internal_read_file_close_error_witness :
    ∃ w3, internal_read_file lp64 4 fsBadClose "f" "r" worldFree = some (none, w3)
      ∧ w3.errno = 28
      ∧ w3.trace = [.fopen "f" "r", .fstat, .ftello, .malloc 4, .fread 4, .ferror]
          ++ [.fclose, .free] :=
  internal_read_file_close_error lp64 4 fsBadClose "f" "r" worldFree badClose
    { badClose with data := [] } [1, 2, 3, 0] 3
    { worldFree with
      trace := [.fopen "f" "r", .fstat, .ftello, .malloc 4, .fread 4, .ferror], nalloc := 1 }
    28 rfl rfl rfl

/-- Claim C8: for every path, when `fopen` fails, `read_file` and `read_binary_file`
return `NULL`, the errno of the failed open is left in place, and no other library
call is made: the only entry added to the call log is the `fopen`, so there is no
read and no close. -/
theorem read_file_open_error (P : Platform) (fuel : Nat)
    (fs : String → String → Except Int FILE) (filename : String) (w : World) (e : Int) :
    (fs filename "r" = .error e →
      read_file P fuel fs filename w
        = some (none, { w with errno := e, trace := w.trace ++ [.fopen filename "r"] }))
    ∧ (fs filename "rb" = .error e →
      read_binary_file P fuel fs filename w
        = some (none, { w with errno := e, trace := w.trace ++ [.fopen filename "rb"] })) := by
  constructor <;> intro h <;>
    simp [read_file, read_binary_file, internal_read_file, fopen, h, World.log]

/-- Claim C8 at a path that does not exist (errno 2), in both modes. -/
theorem read_file_open_error_witness :
    read_file lp64 0 fsNone "missing" world0
        = some (none,
            { world0 with errno := 2, trace := world0.trace ++ [.fopen "missing" "r"] })
    ∧ read_binary_file lp64 0 fsNone "missing" world0
        = some (none,
            { world0 with errno := 2, trace := world0.trace ++ [.fopen "missing" "rb"] }) :=
  ⟨(read_file_open_error lp64 0 fsNone "missing" world0 2).1 rfl,
    (read_file_open_error lp64 0 fsNone "missing" world0 2).2 rfl⟩

/-- Claim C9: when the read fails and the close fails as well, the open-and-read call
returns `NULL` and the errno left is the one recorded after the failed read, not the
one set by `fclose`. -/
theorem internal_read_file_read_and_close_error (P : Platform) (fuel : Nat)
    (fs : String → String → Except Int FILE) (filename mode : String) (w : World)
    (s s2 : FILE) (w2 : World) (e : Int)
    (hopen : fs filename mode = .ok s)
    (hread : fread_file P fuel s (w.log (.fopen filename mode)) = some (none, s2, w2))
    (hclose : s2.close = some e) :
    ∃ w3, internal_read_file P fuel fs filename mode w = some (none, w3)
      ∧ w3.errno = w2.errno := by
  unfold internal_read_file fopen
  simp only [hopen, hread, fclose, hclose]
  exact ⟨_, rfl, rfl⟩

/-- Claim C9 at a file whose read fails with errno 5 and whose close fails with
errno 9: the call leaves errno 5. -/
theorem internal_read_file_read_and_close_error_witness :
    ∃ w3, internal_read_file lp64 2 fsBadFile "f" "rb" worldFree = some (none, w3)
      ∧ w3.errno = 5 :=
  internal_read_file_read_and_close_error lp64 2 fsBadFile "f" "rb" worldFree badFile
    { badFile with data := [], error := true }
    { worldFree with
      errno := 5,
      trace := [.fopen "f" "rb", .fstat, .ftello, .malloc 3, .fread 3, .realloc 4, .fread 1,
        .ferror, .free],
      nalloc := 2 }
    9 rfl rfl rfl

/-- Claim C10: for a regular file at a known position `pos < st_size`, when
`st_size - pos` exceeds `SIZE_MAX - 1`, `fread_file` returns `NULL` with errno
`ENOMEM` right after the metadata and position queries, for any fuel: no capacity is
computed, the call log gains no allocation request and no read, and the stream is
untouched. -/
theorem fread_file_hint_overflow (P : Platform) (fuel : Nat) (s : FILE) (w : World)
    (st : Stat) (pos : Nat)
    (hstat : s.stat = .ok st) (hreg : st.isreg = true) (htell : s.tell = .ok pos)
    (hpos : (pos : Int) < st.st_size)
    (hbig : (P.SIZE_MAX : Int) - 1 < st.st_size - pos) :
    fread_file P fuel s w
      = some (none, s, { w with errno := P.ENOMEM, trace := w.trace ++ [.fstat, .ftello] }) := by
  unfold fread_file fread_file_init
  rw [fread_file_alloc_eq]
  simp [hstat, hreg, htell, hpos, hbig, World.log]

/-- Claim C10 on the 32-bit platform at a file of 2^32 bytes read from its start. -/
theorem fread_file_hint_overflow_witness :
    fread_file ilp32 0 (regOf 4294967296 [1, 2, 3]) world0
      = some (none, regOf 4294967296 [1, 2, 3],
          { world0 with errno := ilp32.ENOMEM, trace := world0.trace ++ [.fstat, .ftello] }) :=
  fread_file_hint_overflow ilp32 0 (regOf 4294967296 [1, 2, 3]) world0
    { isreg := true, st_size := 4294967296 } 0 rfl rfl rfl (by decide) (by decide)

/-! ## Passes that stay in the loop -/

theorem realloc_some_world (buf : List Byte) (n : Nat) (w : World) (b : List Byte)
    (w1 : World) (h : realloc buf n w = (some b, w1)) :
    w1 = { w.log (.realloc n) with nalloc := w.nalloc + 1 } := by
  unfold realloc at h
  split at h
  · simp only [Prod.mk.injEq, Option.some.injEq] at h
    exact h.2.symm
  · simp at h

theorem realloc_none_world (buf : List Byte) (n : Nat) (w : World) (w1 : World)
    (h : realloc buf n w = (none, w1)) :
    ∃ e, w.heap w.nalloc n = some e
      ∧ w1 = { w with errno := e, trace := w.trace ++ [.realloc n], nalloc := w.nalloc + 1 } := by
  unfold realloc at h
  split at h
  · simp at h
  · rename_i e he
    simp only [Prod.mk.injEq, true_and] at h
    exact ⟨e, he, by rw [← h]; simp [World.log]⟩

theorem loop_body_next_spec (P : Platform) (st st1 : LoopState) (hinv : st.Inv P)
    (h : loop_body P st = .next st1) :
    st.alloc - st.size ≤ st.stream.data.length ∧ st.alloc ≠ P.SIZE_MAX
      ∧ st1.size = st.alloc ∧ st1.alloc = next_alloc P st.alloc
      ∧ st1.stream = { st.stream with data := st.stream.data.drop (st.alloc - st.size) }
      ∧ st1.world = { st.world with
          trace := st.world.trace
            ++ [.fread (st.alloc - st.size), .realloc (next_alloc P st.alloc)],
          nalloc := st.world.nalloc + 1 } := by
  obtain ⟨hlen, hsz, hmax⟩ := hinv
  unfold loop_body at h
  rw [size_sub_eq P hsz hmax] at h
  by_cases hfull : st.alloc - st.size ≤ st.stream.data.length
  · have hfr : fread st.stream (st.alloc - st.size) st.world
        = (st.stream.data.take (st.alloc - st.size),
            { st.stream with data := st.stream.data.drop (st.alloc - st.size) },
            st.world.log (.fread (st.alloc - st.size))) := by
      unfold fread
      rw [if_pos hfull]
    have hcount : (st.stream.data.take (st.alloc - st.size)).length
        = st.alloc - st.size := by
      simp [hfull]
    simp only [hfr] at h
    rw [hcount, if_neg (by simp), size_add_eq P (by omega)] at h
    split at h
    · simp at h
    · rename_i hne
      split at h
      · simp at h
      · rename_i new_buf w2 hre
        have hw := realloc_some_world _ _ _ _ _ hre
        simp only [Step.next.injEq] at h
        subst h
        subst hw
        refine ⟨hfull, hne, by simp only; omega, rfl, rfl, ?_⟩
        simp [World.log]
  · exfalso
    have hfr : (fread st.stream (st.alloc - st.size) st.world).1 = st.stream.data := by
      unfold fread
      rw [if_neg hfull]
      split <;> rfl
    rcases hq : fread st.stream (st.alloc - st.size) st.world with ⟨bytes, s1, w1⟩
    rw [hq] at hfr
    simp only at hfr
    subst hfr
    simp only [hq] at h
    rw [if_pos (by omega)] at h
    split at h <;> simp at h

theorem loop_iter_inv (P : Platform) (n : Nat) (st0 st : LoopState) (hinv : st0.Inv P)
    (h : loop_iter P n st0 = some st) : st.Inv P := by
  induction n generalizing st0 with
  | zero =>
    simp only [loop_iter, Option.some.injEq] at h
    exact h ▸ hinv
  | succ m ih =>
    unfold loop_iter at h
    split at h
    · simp at h
    · rename_i st1 hb
      exact ih st1 (loop_body_next_inv P st0 st1 hinv hb) h

theorem fread_file_init_fields (P : Platform) (s : FILE) (w : World) (st0 : LoopState)
    (h : fread_file_init P s w = .ok st0) :
    st0.size = 0 ∧ st0.stream = s
      ∧ ∃ w1, fread_file_alloc P s w = .ok (st0.alloc, w1) := by
  unfold fread_file_init at h
  split at h
  · simp at h
  · rename_i a w1 ha
    split at h
    · simp at h
    · simp only [Except.ok.injEq] at h
      subst h
      exact ⟨rfl, rfl, w1, ha⟩

theorem fread_file_init_live (P : Platform) (s : FILE) (w : World) (st0 : LoopState)
    (hB : 2 ≤ P.BUFSIZ) (hB1 : P.BUFSIZ ≤ P.SIZE_MAX)
    (h : fread_file_init P s w = .ok st0) : st0.Live P := by
  have hinv := fread_file_init_inv P s w st0 h
  obtain ⟨hz, -, w1, ha⟩ := fread_file_init_fields P s w st0 h
  have h2 : 2 ≤ st0.alloc := by
    cases hs : size_hint s with
    | none =>
      obtain ⟨w2, hd⟩ := fread_file_alloc_default P s w hs
      rw [hd, size_t_eq P hB1] at ha
      simp only [Except.ok.injEq, Prod.mk.injEq] at ha
      omega
    | some h0 =>
      have hpos := size_hint_pos s h0 hs
      by_cases hfit : h0 ≤ (P.SIZE_MAX : Int) - 1
      · obtain ⟨w2, hd⟩ := fread_file_alloc_hint P s w h0 hs hfit
        rw [hd] at ha
        simp only [Except.ok.injEq, Prod.mk.injEq] at ha
        omega
      · rw [fread_file_alloc_big P s w h0 hs (by omega)] at ha
        simp at ha
  exact ⟨hinv, by omega, h2⟩

theorem loop_body_next_live (P : Platform) (st st1 : LoopState) (hl : st.Live P)
    (h : loop_body P st = .next st1) :
    st1.Live P ∧ st.alloc < st1.alloc
      ∧ st1.stream.data.length < st.stream.data.length
      ∧ st1.size + st1.stream.data.length = st.size + st.stream.data.length := by
  obtain ⟨hinv, hsz, h2⟩ := hl
  have hinv1 := loop_body_next_inv P st st1 hinv h
  obtain ⟨hfull, hne, hs1, ha1, hst1, -⟩ := loop_body_next_spec P st st1 hinv h
  have hmax := hinv.2.2
  have hgt := next_alloc_gt P st.alloc h2 (by omega)
  have hd : st1.stream.data.length = st.stream.data.length - (st.alloc - st.size) := by
    rw [hst1]; simp
  exact ⟨⟨hinv1, by omega, by omega⟩, by omega, by omega, by omega⟩

theorem loop_iter_live (P : Platform) (n : Nat) (st0 st : LoopState) (hl : st0.Live P)
    (h : loop_iter P n st0 = some st) :
    st.Live P ∧ st0.alloc ≤ st.alloc
      ∧ st.size + st.stream.data.length = st0.size + st0.stream.data.length := by
  induction n generalizing st0 with
  | zero =>
    simp only [loop_iter, Option.some.injEq] at h
    subst h
    exact ⟨hl, le_refl _, rfl⟩
  | succ m ih =>
    unfold loop_iter at h
    split at h
    · simp at h
    · rename_i st1 hb
      obtain ⟨hl1, hlt, -, hsum⟩ := loop_body_next_live P st0 st1 hl hb
      obtain ⟨hl2, hle, hsum2⟩ := ih st1 hl1 h
      exact ⟨hl2, by omega, by omega⟩

/-! ## The call log -/

theorem fread_closes (s : FILE) (r : Nat) (w : World) :
    (fread s r w).2.2.trace.count .fclose = w.trace.count .fclose := by
  unfold fread
  split
  · simp [World.log]
  · split <;> simp [World.log]

theorem realloc_closes (buf : List Byte) (n : Nat) (w : World) :
    (realloc buf n w).2.trace.count .fclose = w.trace.count .fclose := by
  unfold realloc
  split <;> simp [World.log]

theorem malloc_closes (n : Nat) (w : World) :
    (malloc n w).2.trace.count .fclose = w.trace.count .fclose := by
  unfold malloc
  split <;> simp [World.log]

theorem free_closes (w : World) :
    (free w).trace.count .fclose = w.trace.count .fclose := by
  rw [free_trace]
  simp

theorem loop_body_closes (P : Platform) (st : LoopState) :
    (∀ st1, loop_body P st = .next st1 →
      st1.world.trace.count .fclose = st.world.trace.count .fclose)
    ∧ (∀ r, loop_body P st = .done r →
      r.2.2.trace.count .fclose = st.world.trace.count .fclose) := by
  have hf := fread_closes st.stream (size_sub P st.alloc st.size) st.world
  unfold loop_body
  rcases hfr : fread st.stream (size_sub P st.alloc st.size) st.world with ⟨bytes, s1, w1⟩
  rw [hfr] at hf
  simp only at hf
  simp only [hfr]
  split
  · refine ⟨fun st1 h => ?_, fun r h => ?_⟩
    · split at h <;> simp at h
    · simp only [ferror] at h
      split at h
      · simp only [Step.done.injEq] at h
        subst h
        simp [fread_file_fail, free_closes, World.log, hf]
      · split at h
        · have hr := realloc_closes (store st.buf st.size bytes)
            (size_add P (size_add P st.size bytes.length) 1) (w1.log .ferror)
          split at h
          · rename_i hre
            rw [hre] at hr
            simp only [Step.done.injEq] at h
            subst h
            simpa [World.log, hf] using hr
          · rename_i hre
            rw [hre] at hr
            simp only [Step.done.injEq] at h
            subst h
            simpa [World.log, hf] using hr
        · simp only [Step.done.injEq] at h
          subst h
          simp [World.log, hf]
  · split
    · refine ⟨fun st1 h => by simp at h, fun r h => ?_⟩
      simp only [Step.done.injEq] at h
      subst h
      simp [fread_file_fail, free_closes, hf]
    · have hr := realloc_closes (store st.buf st.size bytes) (next_alloc P st.alloc) w1
      split
      · rename_i hre
        rw [hre] at hr
        refine ⟨fun st1 h => by simp at h, fun r h => ?_⟩
        simp only [Step.done.injEq] at h
        subst h
        simpa [fread_file_fail, free_closes, hf] using hr
      · rename_i hre
        rw [hre] at hr
        refine ⟨fun st1 h => ?_, fun r h => by simp at h⟩
        simp only [Step.next.injEq] at h
        subst h
        simpa [hf] using hr

theorem fread_loop_closes (P : Platform) (fuel : Nat) (st : LoopState) (r : Result)
    (h : fread_loop P fuel st = some r) :
    r.2.2.trace.count .fclose = st.world.trace.count .fclose := by
  induction fuel generalizing st with
  | zero => simp [fread_loop] at h
  | succ n ih =>
    unfold fread_loop at h
    split at h
    · rename_i r1 hb
      simp only [Option.some.injEq] at h
      subst h
      exact (loop_body_closes P st).2 r1 hb
    · rename_i st1 hb
      rw [ih st1 h]
      exact (loop_body_closes P st).1 st1 hb

theorem fread_file_alloc_closes (P : Platform) (s : FILE) (w : World) :
    (∀ w1, fread_file_alloc P s w = .error w1 →
      w1.trace.count .fclose = w.trace.count .fclose)
    ∧ (∀ a w1, fread_file_alloc P s w = .ok (a, w1) →
      w1.trace.count .fclose = w.trace.count .fclose) := by
  rw [fread_file_alloc_eq]
  constructor
  · intro w1 h
    split at h
    · simp at h
    · split at h
      · split at h
        · simp at h
        · split at h
          · split at h
            · simp only [Except.error.injEq] at h
              subst h
              simp [World.log]
            · simp at h
          · simp at h
      · simp at h
  · intro a w1 h
    split at h
    · simp only [Except.ok.injEq, Prod.mk.injEq] at h
      rw [← h.2]
      simp [World.log]
    · split at h
      · split at h
        · simp only [Except.ok.injEq, Prod.mk.injEq] at h
          rw [← h.2]
          simp [World.log]
        · split at h
          · split at h
            · simp at h
            · simp only [Except.ok.injEq, Prod.mk.injEq] at h
              rw [← h.2]
              simp [World.log]
          · simp only [Except.ok.injEq, Prod.mk.injEq] at h
            rw [← h.2]
            simp [World.log]
      · simp only [Except.ok.injEq, Prod.mk.injEq] at h
        rw [← h.2]
        simp [World.log]

theorem fread_file_closes (P : Platform) (fuel : Nat) (s : FILE) (w : World) (r : Result)
    (h : fread_file P fuel s w = some r) :
    r.2.2.trace.count .fclose = w.trace.count .fclose := by
  unfold fread_file fread_file_init at h
  split at h
  · rename_i r1 hi
    simp only [Option.some.injEq] at h
    subst h
    split at hi
    · rename_i w1 ha
      simp only [Except.error.injEq] at hi
      subst hi
      exact (fread_file_alloc_closes P s w).1 w1 ha
    · rename_i a w1 ha
      have hm := malloc_closes a w1
      split at hi
      · rename_i w2 hmal
        rw [hmal] at hm
        simp only [Except.error.injEq] at hi
        subst hi
        simp only at hm ⊢
        rw [hm]
        exact (fread_file_alloc_closes P s w).2 a w1 ha
      · simp at hi
  · rename_i st hi
    rw [fread_loop_closes P fuel st r h]
    split at hi
    · simp at hi
    · rename_i a w1 ha
      have hm := malloc_closes a w1
      split at hi
      · simp at hi
      · rename_i b w2 hmal
        rw [hmal] at hm
        simp only [Except.ok.injEq] at hi
        subst hi
        simp only at hm ⊢
        rw [hm]
        exact (fread_file_alloc_closes P s w).2 a w1 ha

/-- Claim C11: when the open succeeds and `fread_file` has returned, with a buffer or
with `NULL`, `internal_read_file` returns after exactly one `fclose`: the call log
gains one `fclose` over the whole call, placed after everything `fread_file` logged
and followed at most by the `free` of the discarded buffer. This holds whether the
read succeeded, the read failed or the close failed. A non-`NULL` result is the buffer
of `fread_file` and is returned only if `fclose` succeeded as well. -/
theorem internal_read_file_closes_once (P : Platform) (fuel : Nat)
    (fs : String → String → Except Int FILE) (filename mode : String) (w : World)
    (s s2 : FILE) (out : Option (List Byte × Nat)) (w2 : World)
    (hopen : fs filename mode = .ok s)
    (hread : fread_file P fuel s (w.log (.fopen filename mode)) = some (out, s2, w2)) :
    ∃ r w3, internal_read_file P fuel fs filename mode w = some (r, w3)
      ∧ w3.trace.count .fclose = w.trace.count .fclose + 1
      ∧ (w3.trace = w2.trace ++ [.fclose] ∨ w3.trace = w2.trace ++ [.fclose, .free])
      ∧ (r.isSome = true → r = out ∧ s2.close = none) := by
  have hc := fread_file_closes P fuel s (w.log (.fopen filename mode)) (out, s2, w2) hread
  have hc2 : w2.trace.count .fclose = w.trace.count .fclose := by
    simpa [World.log] using hc
  unfold internal_read_file fopen
  simp only [hopen, hread, fclose]
  cases hcl : s2.close with
  | none =>
    refine ⟨out, _, rfl, ?_, Or.inl ?_, fun _ => ⟨rfl, rfl⟩⟩
    · simp [World.log, hc2]
    · simp [World.log]
  | some e =>
    cases out with
    | none =>
      refine ⟨none, _, rfl, ?_, Or.inl ?_, fun h => by simp at h⟩
      · simp [World.log, hc2]
      · simp [World.log]
    | some b =>
      refine ⟨none, _, rfl, ?_, Or.inr ?_, fun h => by simp at h⟩
      · simp [free_trace, World.log, hc2]
      · simp [free_trace, World.log]

/-- Claim C11 at a file whose read fails and whose close fails. -/
theorem internal_read_file_closes_once_witness :
    ∃ r w3, internal_read_file lp64 2 fsBadFile "f" "r" worldFree = some (r, w3)
      ∧ w3.trace.count .fclose = worldFree.trace.count .fclose + 1
      ∧ (w3.trace
            = [.fopen "f" "r", .fstat, .ftello, .malloc 3, .fread 3, .realloc 4, .fread 1,
                .ferror, .free] ++ [.fclose]
          ∨ w3.trace
            = [.fopen "f" "r", .fstat, .ftello, .malloc 3, .fread 3, .realloc 4, .fread 1,
                .ferror, .free] ++ [.fclose, .free])
      ∧ (r.isSome = true → r = none ∧ ({ badFile with data := [], error := true } : FILE).close
          = none) :=
  internal_read_file_closes_once lp64 2 fsBadFile "f" "r" worldFree badFile
    { badFile with data := [], error := true } none
    { worldFree with
      errno := 5,
      trace := [.fopen "f" "r", .fstat, .ftello, .malloc 3, .fread 3, .realloc 4, .fread 1,
        .ferror, .free],
      nalloc := 2 }
    rfl rfl

theorem fread_trace (s : FILE) (r : Nat) (w : World) :
    (fread s r w).2.2.trace = w.trace ++ [.fread r] := by
  unfold fread
  split
  · rfl
  · split <;> rfl

/-- Claim C13: every growth step of the loop of `fread_file` is taken after a read
that fully satisfied the request and with a capacity `c` below `SIZE_MAX`, and sets
the new capacity to `min (c + c / 2, SIZE_MAX)` computed over the natural numbers:
growth by one half, clamped at `SIZE_MAX`, never reduced modulo `SIZE_MAX + 1`. -/
theorem fread_file_growth_step (P : Platform) (n : Nat) (s : FILE) (w : World)
    (st0 st st1 : LoopState)
    (hinit : fread_file_init P s w = .ok st0)
    (hreach : loop_iter P n st0 = some st)
    (hstep : loop_body P st = .next st1) :
    st.alloc - st.size ≤ st.stream.data.length
      ∧ st.alloc < P.SIZE_MAX
      ∧ st1.alloc = min (st.alloc + st.alloc / 2) P.SIZE_MAX := by
  have hinv := loop_iter_inv P n st0 st (fread_file_init_inv P s w st0 hinit) hreach
  obtain ⟨hfull, hne, -, ha1, -, -⟩ := loop_body_next_spec P st st1 hinv hstep
  have hmax := hinv.2.2
  exact ⟨hfull, by omega, by rw [ha1, next_alloc_eq P st.alloc hmax]⟩

/-- Claim C13 at the first pass over `badFile`: the capacity 3 becomes 4. -/
theorem fread_file_growth_step_witness :
    badFileStart.alloc - badFileStart.size ≤ badFileStart.stream.data.length
      ∧ badFileStart.alloc < lp64.SIZE_MAX
      ∧ badFileLater.alloc = min (badFileStart.alloc + badFileStart.alloc / 2) lp64.SIZE_MAX :=
  fread_file_growth_step lp64 0 badFile worldFree badFileStart badFileStart badFileLater
    rfl rfl rfl

theorem loop_body_exhausted (P : Platform) (st : LoopState)
    (hmax : st.alloc = P.SIZE_MAX)
    (hfull : (fread st.stream (size_sub P st.alloc st.size) st.world).1.length
      = size_sub P st.alloc st.size) :
    ∃ s1 w1, loop_body P st = .done (none, s1, w1) ∧ w1.errno = P.ENOMEM
      ∧ w1.trace = st.world.trace ++ [.fread (size_sub P st.alloc st.size), .free] := by
  have ht := fread_trace st.stream (size_sub P st.alloc st.size) st.world
  unfold loop_body
  rcases hfr : fread st.stream (size_sub P st.alloc st.size) st.world with ⟨bytes, s1, w1⟩
  rw [hfr] at hfull ht
  simp only at hfull ht
  simp only [hfr]
  rw [if_neg (by simpa using hfull), if_pos hmax]
  refine ⟨_, _, rfl, rfl, ?_⟩
  simp [free_trace, ht]

/-- Claim C14: let the loop of `fread_file` have made `n` full passes and the capacity
be `SIZE_MAX`. If the next read fully satisfies its request, `fread_file` returns
`NULL` with errno `ENOMEM`, and after that read the call log gains only the `free` of
the buffer: no further read and no reallocation. -/
theorem fread_file_capacity_exhausted (P : Platform) (fuel n : Nat) (s : FILE) (w : World)
    (st0 st : LoopState)
    (hinit : fread_file_init P s w = .ok st0)
    (hreach : loop_iter P n st0 = some st)
    (hmax : st.alloc = P.SIZE_MAX)
    (hfull : (fread st.stream (size_sub P st.alloc st.size) st.world).1.length
      = size_sub P st.alloc st.size)
    (hfuel : n < fuel) :
    ∃ s1 w1, fread_file P fuel s w = some (none, s1, w1) ∧ w1.errno = P.ENOMEM
      ∧ w1.trace = st.world.trace ++ [.fread (size_sub P st.alloc st.size), .free] := by
  obtain ⟨k, rfl⟩ : ∃ k, fuel = n + (k + 1) := ⟨fuel - n - 1, by omega⟩
  obtain ⟨s1, w1, hb, he, ht⟩ := loop_body_exhausted P st hmax hfull
  unfold fread_file
  rw [hinit]
  simp only
  rw [fread_loop_iter P n (k + 1) st0 st hreach]
  unfold fread_loop
  rw [hb]
  exact ⟨s1, w1, rfl, he, ht⟩

theorem hugeFile_init : fread_file_init ilp32 hugeFile world0 = .ok hugeFileStart := by
  have ha : fread_file_alloc ilp32 hugeFile world0
      = .ok (4294967295, (world0.log .fstat).log .ftello) := by
    rw [fread_file_alloc_eq]
    simp only [hugeFile, regOf]
    rw [if_pos trivial, if_pos (by decide), if_neg (by decide)]
    have hn : size_t ilp32 ((4294967294 : Int) - ((0 : Nat) : Int) + 1).toNat = 4294967295 := by
      decide
    rw [hn]
  unfold fread_file_init
  rw [ha]
  rfl

theorem hugeFile_full :
    (fread hugeFileStart.stream (size_sub ilp32 hugeFileStart.alloc hugeFileStart.size)
      hugeFileStart.world).1.length
      = size_sub ilp32 hugeFileStart.alloc hugeFileStart.size := by
  have h : size_sub ilp32 hugeFileStart.alloc hugeFileStart.size = 4294967295 := by
    decide
  have hd : hugeFileStart.stream.data.length = 4294967295 := by
    simp only [hugeFileStart, hugeFile, regOf, List.length_replicate]
  rw [h]
  unfold fread
  rw [if_pos (by rw [hd])]
  simp only [List.length_take, hd, Nat.min_self]

theorem fread_file_exhausted (P : Platform) (fuel n : Nat) (s : FILE) (w : World)
    (st0 st : LoopState)
    (hinit : fread_file_init P s w = .ok st0)
    (hreach : loop_iter P n st0 = some st)
    (hmax : st.alloc = P.SIZE_MAX)
    (hfull : (fread st.stream (size_sub P st.alloc st.size) st.world).1.length
      = size_sub P st.alloc st.size)
    (hfuel : n < fuel) :
    ∃ s1 w1, fread_file P fuel s w = some (none, s1, w1) ∧ w1.errno = P.ENOMEM := by
  obtain ⟨k, rfl⟩ : ∃ k, fuel = n + (k + 1) := ⟨fuel - n - 1, by omega⟩
  obtain ⟨s1, w1, hb, he, -⟩ := loop_body_exhausted P st hmax hfull
  unfold fread_file
  rw [hinit]
  simp only
  rw [fread_loop_iter P n (k + 1) st0 st hreach]
  unfold fread_loop
  rw [hb]
  exact ⟨s1, w1, rfl, he⟩

theorem hugeFile_null :
    (fread_file ilp32 1 hugeFile world0).map (fun r => (r.1, r.2.2.errno))
      = some (none, 12) := by
  obtain ⟨s1, w1, hr, he⟩ := fread_file_exhausted ilp32 1 0 hugeFile world0 hugeFileStart
    hugeFileStart hugeFile_init rfl rfl hugeFile_full (by decide)
  rw [hr]
  simp only [Option.map_some', he]
  rfl

theorem hugeFile_length : hugeFile.data.length = 4294967295 := by
  simp only [hugeFile, regOf, List.length_replicate]

/-- Claim C5, as stated, fails in two ways. At a file whose hint says 2 bytes and that
delivers 5, when the initial `malloc` of 3 bytes is refused and every `realloc` would
be granted, `fread_file` returns `NULL` after `fstat`, `ftello` and that `malloc`. On
the 32-bit platform, at a file whose hint says `SIZE_MAX - 1` bytes and that delivers
`SIZE_MAX` bytes, with every allocation request granted, the read fills the capacity
`SIZE_MAX` and `fread_file` returns `NULL` with errno `ENOMEM`. -/
theorem fread_file_grown_counterexample :
    (size_hint (regOf 2 [1, 2, 3, 4, 5]) = some 2
      ∧ (regOf 2 [1, 2, 3, 4, 5]).data.length = 5
      ∧ (regOf 2 [1, 2, 3, 4, 5]).fail = none ∧ (regOf 2 [1, 2, 3, 4, 5]).error = false
      ∧ (fread_file lp64 6 (regOf 2 [1, 2, 3, 4, 5]) worldNoMalloc).map
          (fun r => (r.1, r.2.2.trace)) = some (none, [.fstat, .ftello, .malloc 3]))
    ∧ (size_hint hugeFile = some 4294967294 ∧ hugeFile.data.length = 4294967295
      ∧ hugeFile.fail = none ∧ hugeFile.error = false
      ∧ (fread_file ilp32 1 hugeFile world0).map (fun r => (r.1, r.2.2.errno))
          = some (none, 12)) :=
  ⟨by decide, by decide, hugeFile_length, rfl, rfl, hugeFile_null⟩

/-- Claim C14 on the 32-bit platform at a file that fills a buffer of `SIZE_MAX`
bytes. -/
theorem fread_file_capacity_exhausted_witness :
    ∃ s1 w1, fread_file ilp32 1 hugeFile world0 = some (none, s1, w1)
      ∧ w1.errno = ilp32.ENOMEM
      ∧ w1.trace = hugeFileStart.world.trace
          ++ [.fread (size_sub ilp32 hugeFileStart.alloc hugeFileStart.size), .free] :=
  fread_file_capacity_exhausted ilp32 1 0 hugeFile world0 hugeFileStart hugeFileStart
    hugeFile_init rfl rfl hugeFile_full (by decide)


theorem fread_file_alloc_hint_world (P : Platform) (s : FILE) (w : World) (h : Int)
    (hs : size_hint s = some h) (hfit : h ≤ (P.SIZE_MAX : Int) - 1) :
    fread_file_alloc P s w = .ok ((h + 1).toNat, (w.log .fstat).log .ftello) := by
  rw [fread_file_alloc_eq]
  unfold size_hint at hs
  split at hs
  · rename_i st pos hst htl
    split at hs
    · rename_i hc
      simp only [Option.some.injEq] at hs
      subst hs
      simp only [hst, htl, hc.1, hc.2, if_true]
      rw [if_neg (by omega), size_t_eq P (by omega)]
    · simp at hs
  · simp at hs

theorem loop_body_eof_exact (P : Platform) (st : LoopState) (hinv : st.Inv P)
    (hfail : st.stream.fail = none) (herr : st.stream.error = false)
    (hexact : st.size + st.stream.data.length + 1 = st.alloc) :
    loop_body P st = .done (some (st.buf.take st.size ++ st.stream.data ++ [0],
        st.size + st.stream.data.length), { st.stream with data := [] },
        (st.world.log (.fread (st.alloc - st.size))).log .ferror) := by
  obtain ⟨hlen, hsz, hmax⟩ := hinv
  have hst : (store st.buf st.size st.stream.data).length = st.alloc := by
    rw [store_length _ _ _ (by omega), hlen]
  have htk := store_take st.buf st.size st.stream.data (by omega)
  unfold loop_body
  rw [size_sub_eq P hsz hmax]
  have hfr : fread st.stream (st.alloc - st.size) st.world
      = (st.stream.data, { st.stream with data := [] },
          st.world.log (.fread (st.alloc - st.size))) := by
    unfold fread
    rw [if_neg (by omega)]
    simp [hfail]
  simp only [hfr]
  rw [if_pos (by omega), size_add_eq P (by omega), size_sub_eq P (by omega) hmax]
  simp only [ferror, herr]
  rw [if_neg (show ¬ (st.size + st.stream.data.length < st.alloc - 1) by omega)]
  simp only [Bool.false_eq_true, if_false]
  rw [set_last_eq _ _ _ (by omega), htk]

/-- Claim C15, as stated, fails when the initial allocation is refused: for a regular
file of three bytes with an accurate hint, `fread_file` returns `NULL` after `fstat`,
`ftello` and the failed `malloc`, and issues no read request at all. -/
theorem fread_file_exact_hint_counterexample :
    (size_hint (regOf 3 [1, 2, 3]) = some 3 ∧ (regOf 3 [1, 2, 3]).data.length = 3
      ∧ (regOf 3 [1, 2, 3]).fail = none ∧ (regOf 3 [1, 2, 3]).error = false)
    ∧ (fread_file lp64 1 (regOf 3 [1, 2, 3]) worldNoMem).map (fun r => (r.1, r.2.2.trace))
        = some (none, [.fstat, .ftello, .malloc 4]) := by
  decide

/-- Claim C15, amended: for a regular file whose size hint is accurate (the hint says
`R` bytes, the stream delivers exactly `R` bytes and then end-of-file with its error
indicator clear, `R + 1 <= SIZE_MAX`), when the initial allocation succeeds,
`fread_file` returns the `R` bytes after one pass. The calls it makes are `fstat`,
`ftello`, one `malloc` of `R + 1` bytes, one `fread` of `R + 1` bytes and the `ferror`
that tells end-of-file from an error: one read request, one more byte than the hint,
and no `realloc`, neither to grow nor to trim. -/
theorem fread_file_exact_hint (P : Platform) (fuel : Nat) (s : FILE) (w : World) (R : Int)
    (hs : size_hint s = some R) (hR : (s.data.length : Int) = R)
    (hfit : R ≤ (P.SIZE_MAX : Int) - 1)
    (hfail : s.fail = none) (herr : s.error = false)
    (hmalloc : w.heap w.nalloc (s.data.length + 1) = none)
    (hfuel : 1 ≤ fuel) :
    ∃ s1 w1, fread_file P fuel s w = some (some (s.data ++ [0], s.data.length), s1, w1)
      ∧ s1.data = []
      ∧ w1.trace = w.trace ++ [.fstat, .ftello, .malloc (s.data.length + 1),
          .fread (s.data.length + 1), .ferror] := by
  have ha := fread_file_alloc_hint_world P s w R hs hfit
  have hn : (R + 1).toNat = s.data.length + 1 := by omega
  rw [hn] at ha
  have hi : fread_file_init P s w = .ok
      { buf := fresh ((w.log .fstat).log .ftello) (s.data.length + 1),
        alloc := s.data.length + 1, size := 0, stream := s,
        world := { (w.log .fstat).log .ftello with
          trace := ((w.log .fstat).log .ftello).trace ++ [.malloc (s.data.length + 1)],
          nalloc := w.nalloc + 1 } } := by
    unfold fread_file_init
    rw [ha]
    simp only
    rw [malloc_ok _ _ (by simpa [World.log] using hmalloc)]
    simp [World.log]
  have hinv := fread_file_init_inv P s w _ hi
  obtain ⟨k, rfl⟩ : ∃ k, fuel = k + 1 := ⟨fuel - 1, by omega⟩
  unfold fread_file
  rw [hi]
  simp only
  unfold fread_loop
  rw [loop_body_eof_exact P _ hinv hfail herr (by simp)]
  simp only [List.take_zero, List.nil_append, Nat.zero_add]
  refine ⟨_, _, rfl, rfl, ?_⟩
  simp [World.log]

/-- Claim C15, amended, at a regular file of three bytes. -/
theorem fread_file_exact_hint_witness :
    ∃ s1 w1, fread_file lp64 1 (regOf 3 [1, 2, 3]) world0
        = some (some ((regOf 3 [1, 2, 3]).data ++ [0], (regOf 3 [1, 2, 3]).data.length), s1, w1)
      ∧ s1.data = []
      ∧ w1.trace = world0.trace ++ [.fstat, .ftello,
          .malloc ((regOf 3 [1, 2, 3]).data.length + 1),
          .fread ((regOf 3 [1, 2, 3]).data.length + 1), .ferror] :=
  fread_file_exact_hint lp64 1 (regOf 3 [1, 2, 3]) world0 3 (by decide) (by decide)
    (by decide) rfl rfl rfl (le_refl 1)


theorem fread_heap (s : FILE) (r : Nat) (w : World) :
    (fread s r w).2.2.heap = w.heap ∧ (fread s r w).2.2.nalloc = w.nalloc := by
  unfold fread
  split
  · exact ⟨rfl, rfl⟩
  · split <;> exact ⟨rfl, rfl⟩

theorem loop_body_trim (P : Platform) (st : LoopState) (hinv : st.Inv P)
    (hshort : (fread st.stream (size_sub P st.alloc st.size) st.world).1.length
      ≠ size_sub P st.alloc st.size)
    (herr : (fread st.stream (size_sub P st.alloc st.size) st.world).2.1.error = false) :
    ∃ buf s1 w1,
      loop_body P st = .done (some (buf,
          st.size + (fread st.stream (size_sub P st.alloc st.size) st.world).1.length), s1, w1)
      ∧ buf.take (st.size
            + (fread st.stream (size_sub P st.alloc st.size) st.world).1.length)
          = st.buf.take st.size ++ (fread st.stream (size_sub P st.alloc st.size) st.world).1
      ∧ ((st.size + (fread st.stream (size_sub P st.alloc st.size) st.world).1.length + 1
            = st.alloc
          ∨ st.world.heap st.world.nalloc
              (st.size + (fread st.stream (size_sub P st.alloc st.size) st.world).1.length + 1)
            = none) →
          buf.length
            = st.size + (fread st.stream (size_sub P st.alloc st.size) st.world).1.length + 1)
      ∧ ((st.size + (fread st.stream (size_sub P st.alloc st.size) st.world).1.length + 1
            < st.alloc
          ∧ st.world.heap st.world.nalloc
              (st.size + (fread st.stream (size_sub P st.alloc st.size) st.world).1.length + 1)
            ≠ none) →
          buf.length = st.alloc) := by
  obtain ⟨hlen, hsz, hmax⟩ := hinv
  have hcnt := fread_length_le st.stream (size_sub P st.alloc st.size) st.world
  have hhp := fread_heap st.stream (size_sub P st.alloc st.size) st.world
  unfold loop_body
  rcases hfr : fread st.stream (size_sub P st.alloc st.size) st.world with ⟨bytes, s1, w1⟩
  rw [hfr] at hcnt hshort herr hhp
  simp only [hfr]
  rw [size_sub_eq P hsz hmax] at hcnt hshort ⊢
  simp only at hcnt hshort herr hhp
  obtain ⟨hheap, hnalloc⟩ := hhp
  have hlt : bytes.length < st.alloc - st.size := by omega
  have hst : (store st.buf st.size bytes).length = st.alloc := by
    rw [store_length _ _ _ (by omega), hlen]
  have htk := store_take st.buf st.size bytes (by omega)
  rw [if_pos hshort, size_add_eq P (by omega), size_sub_eq P (by omega) hmax]
  simp only [ferror, herr]
  simp only [Bool.false_eq_true, if_false]
  by_cases htrim : st.size + bytes.length < st.alloc - 1
  · rw [if_pos htrim, size_add_eq P (by omega)]
    rcases hre : realloc (store st.buf st.size bytes) (st.size + bytes.length + 1)
        (w1.log .ferror) with ⟨ob, w3⟩
    cases ob with
    | none =>
      obtain ⟨e, he, -⟩ := realloc_none_world _ _ _ _ hre
      simp only [World.log, hheap, hnalloc] at he
      refine ⟨_, _, _, rfl, ?_, ?_, ?_⟩
      · rw [take_set_self, htk]
      · rintro (h | h)
        · omega
        · rw [h] at he
          simp at he
      · intro _
        simp [hst]
    | some b =>
      have hb := realloc_length _ _ _ _ _ hre
      have hb2 := realloc_some _ _ _ _ _ hre
      have hw3 : (w1.log .ferror).heap (w1.log .ferror).nalloc (st.size + bytes.length + 1)
          = none := by
        unfold realloc at hre
        split at hre
        · rename_i hn
          exact hn
        · simp at hre
      simp only [World.log, hheap, hnalloc] at hw3
      refine ⟨_, _, _, rfl, ?_, ?_, ?_⟩
      · rw [take_set_self, hb2, List.take_take, Nat.min_eq_left (by omega),
          List.take_append_of_le_length (by omega), htk]
      · intro _
        simp [hb]
      · rintro ⟨-, h⟩
        exact absurd hw3 h
  · rw [if_neg htrim]
    refine ⟨_, _, _, rfl, ?_, ?_, ?_⟩
    · rw [take_set_self, htk]
    · intro _
      simp only [List.length_set, hst]
      omega
    · rintro ⟨h, -⟩
      omega

/-- Claim C16: on the end-of-data path (after `n` full passes the next read returns
fewer bytes than requested and the error indicator is clear) `fread_file` succeeds
whatever the trimming reallocation does: `*length` is the number of bytes read, the
buffer holds those bytes and the terminator at index `*length`. When no trimming is
needed or the trimming `realloc` succeeds, the buffer has exactly `*length + 1` bytes;
when trimming is needed and the `realloc` fails, the larger block of `alloc` bytes is
returned with the same bytes, the same `*length` and the terminator. -/
theorem fread_file_trim (P : Platform) (fuel n : Nat) (s : FILE) (w : World)
    (st0 st : LoopState)
    (hinit : fread_file_init P s w = .ok st0)
    (hreach : loop_iter P n st0 = some st)
    (hshort : (st.read P).1.length ≠ size_sub P st.alloc st.size)
    (herr : (st.read P).2.1.error = false)
    (hfuel : n < fuel) :
    ∃ buf s1 w1,
      fread_file P fuel s w = some (some (buf, st.size + (st.read P).1.length), s1, w1)
      ∧ buf.take (st.size + (st.read P).1.length) = st.buf.take st.size ++ (st.read P).1
      ∧ buf[st.size + (st.read P).1.length]? = some 0
      ∧ ((st.size + (st.read P).1.length + 1 = st.alloc
          ∨ st.world.heap st.world.nalloc (st.size + (st.read P).1.length + 1) = none) →
          buf.length = st.size + (st.read P).1.length + 1)
      ∧ ((st.size + (st.read P).1.length + 1 < st.alloc
          ∧ st.world.heap st.world.nalloc (st.size + (st.read P).1.length + 1) ≠ none) →
          buf.length = st.alloc) := by
  have hinv := loop_iter_inv P n st0 st (fread_file_init_inv P s w st0 hinit) hreach
  obtain ⟨k, rfl⟩ : ∃ k, fuel = n + (k + 1) := ⟨fuel - n - 1, by omega⟩
  obtain ⟨buf, s1, w1, hb, htk, h1, h2⟩ := loop_body_trim P st hinv hshort herr
  have hr : fread_file P (n + (k + 1)) s w
      = some (some (buf, st.size + (st.read P).1.length), s1, w1) := by
    unfold fread_file
    rw [hinit]
    simp only
    rw [fread_loop_iter P n (k + 1) st0 st hreach]
    unfold fread_loop
    rw [hb]
    rfl
  exact ⟨buf, s1, w1, hr, htk, (fread_file_term P _ s w buf _ s1 w1 hr).2, h1, h2⟩

/-- Claim C16 at a file whose hint says 8 bytes and that delivers 3, with the trimming
reallocation refused: the block of 9 bytes is returned. -/
theorem fread_file_trim_witness :
    (fread_file lp64 1 (regOf 8 [1, 2, 3]) worldNoTrim).map
        (fun r => r.1.map (fun b => (b.1.length, b.2))) = some (some (9, 3))
    ∧ ∃ buf s1 w1,
      fread_file lp64 1 (regOf 8 [1, 2, 3]) worldNoTrim
        = some (some (buf, truncStart.size + (truncStart.read lp64).1.length), s1, w1)
      ∧ buf.take (truncStart.size + (truncStart.read lp64).1.length)
          = truncStart.buf.take truncStart.size ++ (truncStart.read lp64).1
      ∧ buf[truncStart.size + (truncStart.read lp64).1.length]? = some 0
      ∧ ((truncStart.size + (truncStart.read lp64).1.length + 1 = truncStart.alloc
          ∨ truncStart.world.heap truncStart.world.nalloc
              (truncStart.size + (truncStart.read lp64).1.length + 1) = none) →
          buf.length = truncStart.size + (truncStart.read lp64).1.length + 1)
      ∧ ((truncStart.size + (truncStart.read lp64).1.length + 1 < truncStart.alloc
          ∧ truncStart.world.heap truncStart.world.nalloc
              (truncStart.size + (truncStart.read lp64).1.length + 1) ≠ none) →
          buf.length = truncStart.alloc) :=
  ⟨by decide,
    fread_file_trim lp64 1 0 (regOf 8 [1, 2, 3]) worldNoTrim truncStart truncStart rfl rfl
      (by decide) rfl (by decide)⟩

theorem malloc_fail (n : Nat) (w : World) (e : Int) (h : w.heap w.nalloc n = some e) :
    malloc n w = (none,
      { w with errno := e, trace := w.trace ++ [.malloc n], nalloc := w.nalloc + 1 }) := by
  unfold malloc
  simp [h, World.log]

theorem realloc_fail (buf : List Byte) (n : Nat) (w : World) (e : Int)
    (h : w.heap w.nalloc n = some e) :
    realloc buf n w = (none,
      { w with errno := e, trace := w.trace ++ [.realloc n], nalloc := w.nalloc + 1 }) := by
  unfold realloc
  simp [h, World.log]

theorem loop_body_grow_fail (P : Platform) (st : LoopState) (e : Int)
    (hfull : (st.read P).1.length = size_sub P st.alloc st.size)
    (hne : st.alloc ≠ P.SIZE_MAX)
    (hheap : st.world.heap st.world.nalloc (next_alloc P st.alloc) = some e) :
    ∃ s1 w1, loop_body P st = .done (none, s1, w1) ∧ w1.errno = e
      ∧ w1.trace = st.world.trace ++ [.fread (size_sub P st.alloc st.size),
          .realloc (next_alloc P st.alloc), .free] := by
  unfold LoopState.read at hfull
  have ht := fread_trace st.stream (size_sub P st.alloc st.size) st.world
  have hhp := fread_heap st.stream (size_sub P st.alloc st.size) st.world
  unfold loop_body
  rcases hfr : fread st.stream (size_sub P st.alloc st.size) st.world with ⟨bytes, s1, w1⟩
  rw [hfr] at hfull ht hhp
  simp only at hfull ht hhp
  simp only [hfr]
  rw [if_neg (by simpa using hfull), if_neg hne]
  rw [realloc_fail _ _ _ e (by rw [hhp.1, hhp.2]; exact hheap)]
  refine ⟨_, _, rfl, rfl, ?_⟩
  simp [free_trace, ht]

/-- Claim C19: a failed allocation request ends the call. If the initial `malloc` is
refused, `fread_file` returns `NULL`, errno holds the code the allocator set, and the
call log ends with that `malloc`: no read is issued. If, after `n` full passes and a
further read that fully satisfied its request, the growth `realloc` is refused,
`fread_file` returns `NULL` although bytes were read, errno holds the code the
allocator set (restored after the `free` of the buffer), and after the refused
`realloc` the call log gains only that `free`: no further read. -/
theorem fread_file_alloc_failure (P : Platform) (fuel : Nat) (s : FILE) (w : World) :
    (∀ a w1 e, fread_file_alloc P s w = .ok (a, w1) → w.heap w.nalloc a = some e →
      ∃ w2, fread_file P fuel s w = some (none, s, w2) ∧ w2.errno = e
        ∧ w2.trace = w1.trace ++ [.malloc a])
    ∧ (∀ n st0 st e, fread_file_init P s w = .ok st0 → loop_iter P n st0 = some st →
        (st.read P).1.length = size_sub P st.alloc st.size → st.alloc ≠ P.SIZE_MAX →
        st.world.heap st.world.nalloc (next_alloc P st.alloc) = some e → n < fuel →
        ∃ s1 w1, fread_file P fuel s w = some (none, s1, w1) ∧ w1.errno = e
          ∧ w1.trace = st.world.trace ++ [.fread (size_sub P st.alloc st.size),
              .realloc (next_alloc P st.alloc), .free]) := by
  constructor
  · intro a w1 e ha hm
    obtain ⟨hh, hn⟩ := fread_file_alloc_world P s w a w1 ha
    unfold fread_file fread_file_init
    rw [ha]
    simp only
    rw [malloc_fail a w1 e (by rw [hh, hn]; exact hm)]
    exact ⟨_, rfl, rfl, rfl⟩
  · intro n st0 st e hinit hreach hfull hne hheap hfuel
    obtain ⟨k, rfl⟩ : ∃ k, fuel = n + (k + 1) := ⟨fuel - n - 1, by omega⟩
    obtain ⟨s1, w1, hb, he, ht⟩ := loop_body_grow_fail P st e hfull hne hheap
    unfold fread_file
    rw [hinit]
    simp only
    rw [fread_loop_iter P n (k + 1) st0 st hreach]
    unfold fread_loop
    rw [hb]
    exact ⟨s1, w1, rfl, he, ht⟩

/-- Claim C19 at a refused `malloc` of 9 bytes, and at a refused growth `realloc`
after three bytes were read. -/
theorem fread_file_alloc_failure_witness :
    (∃ w2, fread_file lp64 1 (regOf 8 [1, 2, 3]) worldNoMem
        = some (none, regOf 8 [1, 2, 3], w2) ∧ w2.errno = 12
      ∧ w2.trace = ((worldNoMem.log .fstat).log .ftello).trace ++ [.malloc 9])
    ∧ (∃ s1 w1, fread_file lp64 1 (regOf 2 [1, 2, 3]) worldNoTrim = some (none, s1, w1)
      ∧ w1.errno = 12
      ∧ w1.trace = grownStart.world.trace
          ++ [.fread (size_sub lp64 grownStart.alloc grownStart.size),
            .realloc (next_alloc lp64 grownStart.alloc), .free]) :=
  ⟨(fread_file_alloc_failure lp64 1 (regOf 8 [1, 2, 3]) worldNoMem).1 9
      ((worldNoMem.log .fstat).log .ftello) 12 rfl rfl,
    (fread_file_alloc_failure lp64 1 (regOf 2 [1, 2, 3]) worldNoTrim).2 0 grownStart
      grownStart 12 rfl rfl (by decide) (by decide) rfl (by decide)⟩


theorem fread_length_le_data (s : FILE) (r : Nat) (w : World) :
    (fread s r w).1.length ≤ s.data.length := by
  unfold fread
  split
  · simp
  · split <;> simp

theorem loop_iter_growth (P : Platform) (m : Nat) (st0 st : LoopState) (hl : st0.Live P)
    (h : loop_iter P m st0 = some st) (hne : st.alloc ≠ P.SIZE_MAX) :
    st0.alloc * 4 ^ m ≤ st.alloc * 3 ^ m := by
  induction m generalizing st0 with
  | zero =>
    simp only [loop_iter, Option.some.injEq] at h
    subst h
    simp
  | succ k ih =>
    unfold loop_iter at h
    split at h
    · simp at h
    · rename_i st1 hb
      obtain ⟨hl1, -, -, -⟩ := loop_body_next_live P st0 st1 hl hb
      obtain ⟨-, -, -, ha1, -⟩ := loop_body_next_spec P st0 st1 hl.1 hb
      have hih := ih st1 hl1 h
      obtain ⟨hl2, hmono, -⟩ := loop_iter_live P k st1 st hl1 h
      have hmax2 := hl2.1.2.2
      have hmax0 := hl.1.2.2
      have h20 := hl.2.2
      rw [next_alloc_eq P st0.alloc hmax0] at ha1
      have hstep : 4 * st0.alloc ≤ 3 * st1.alloc := by omega
      calc st0.alloc * 4 ^ (k + 1) = (4 * st0.alloc) * 4 ^ k := by ring
        _ ≤ (3 * st1.alloc) * 4 ^ k := Nat.mul_le_mul_right _ hstep
        _ = 3 * (st1.alloc * 4 ^ k) := by ring
        _ ≤ 3 * (st.alloc * 3 ^ k) := Nat.mul_le_mul_left _ hih
        _ = st.alloc * 3 ^ (k + 1) := by ring

/-- Claim C17: growth is geometric. Let the loop of `fread_file` start with the
capacity `C` (`BUFSIZ`, or the size hint plus one) on a stream that delivers `N`
bytes, and let it come to its `k`-th growth reallocation, `k >= 1`: after `k - 1`
passes that each ended in a growth, a further read fully satisfies its request below
`SIZE_MAX`. Then `C * 4 ^ (k - 1) <= N * 3 ^ (k - 1)`, that is
`C * (4/3) ^ (k - 1) <= N`: the number of growth reallocations is logarithmic in
`N / C`. `BUFSIZ` is at least 2 and fits in `size_t`. -/
theorem fread_file_growth_count (P : Platform) (k : Nat) (s : FILE) (w : World)
    (st0 st : LoopState)
    (hB : 2 ≤ P.BUFSIZ) (hB1 : P.BUFSIZ ≤ P.SIZE_MAX)
    (_hk : 1 ≤ k)
    (hinit : fread_file_init P s w = .ok st0)
    (hreach : loop_iter P (k - 1) st0 = some st)
    (hfull : (st.read P).1.length = size_sub P st.alloc st.size)
    (hne : st.alloc ≠ P.SIZE_MAX) :
    st0.alloc * 4 ^ (k - 1) ≤ s.data.length * 3 ^ (k - 1) := by
  have hl := fread_file_init_live P s w st0 hB hB1 hinit
  obtain ⟨hz, hs, -⟩ := fread_file_init_fields P s w st0 hinit
  have hg := loop_iter_growth P (k - 1) st0 st hl hreach hne
  obtain ⟨⟨hinv, hlt, -⟩, -, hsum⟩ := loop_iter_live P (k - 1) st0 st hl hreach
  have hd := fread_length_le_data st.stream (size_sub P st.alloc st.size) st.world
  unfold LoopState.read at hfull
  rw [hfull, size_sub_eq P hinv.2.1 hinv.2.2] at hd
  rw [hz, hs] at hsum
  have hle : st.alloc ≤ s.data.length := by omega
  exact le_trans hg (Nat.mul_le_mul_right _ hle)

/-- Claim C17 at a file whose hint says 2 bytes and that delivers 6: the third growth
is reached after two grown passes, and `3 * 4 ^ 2 <= 6 * 3 ^ 2`. -/
theorem fread_file_growth_count_witness :
    growStart.alloc * 4 ^ (3 - 1) ≤ (regOf 2 [1, 2, 3, 4, 5, 6]).data.length * 3 ^ (3 - 1) :=
  fread_file_growth_count lp64 3 (regOf 2 [1, 2, 3, 4, 5, 6]) world0 growStart growLater
    (by decide) (by decide) (by decide) rfl rfl (by decide) (by decide)

/-- Claim C18: the buffer invariant. At every read request of the loop of
`fread_file` (after any number `n` of full passes) the logical size is at most the
capacity minus one, so the requested count `alloc - size` is computed without
wrap-around and is at least 1; the block has exactly `alloc` bytes and `alloc` fits in
`size_t`; after the read the logical size is still at most the capacity; and when the
pass returns a buffer, `*length` is at most its capacity minus one, so the terminator
is written inside the block. `BUFSIZ` is at least 2 and fits in `size_t`. -/
theorem fread_file_buffer_invariant (P : Platform) (n : Nat) (s : FILE) (w : World)
    (st0 st : LoopState)
    (hB : 2 ≤ P.BUFSIZ) (hB1 : P.BUFSIZ ≤ P.SIZE_MAX)
    (hinit : fread_file_init P s w = .ok st0)
    (hreach : loop_iter P n st0 = some st) :
    st.size ≤ st.alloc - 1 ∧ st.size < st.alloc
      ∧ size_sub P st.alloc st.size = st.alloc - st.size
      ∧ 1 ≤ size_sub P st.alloc st.size
      ∧ st.buf.length = st.alloc ∧ st.alloc ≤ P.SIZE_MAX
      ∧ st.size + (st.read P).1.length ≤ st.alloc
      ∧ (∀ buf len s1 w1, loop_body P st = .done (some (buf, len), s1, w1) →
          len ≤ buf.length - 1 ∧ len < buf.length) := by
  have hl0 := fread_file_init_live P s w st0 hB hB1 hinit
  obtain ⟨⟨hinv, hlt, h2⟩, -, -⟩ := loop_iter_live P n st0 st hl0 hreach
  obtain ⟨hlen, hsz, hmax⟩ := hinv
  have hsub := size_sub_eq P hsz hmax
  have hcnt := fread_length_le st.stream (size_sub P st.alloc st.size) st.world
  refine ⟨by omega, hlt, hsub, by omega, hlen, hmax, ?_, ?_⟩
  · unfold LoopState.read
    omega
  · intro buf len s1 w1 hd
    have := loop_body_done_term P st buf len s1 w1 ⟨hlen, hsz, hmax⟩ hd
    omega

/-- Claim C18 at the state reached after two full passes over a file that delivers 6
bytes. -/
theorem fread_file_buffer_invariant_witness :
    growLater.size ≤ growLater.alloc - 1 ∧ growLater.size < growLater.alloc
      ∧ size_sub lp64 growLater.alloc growLater.size = growLater.alloc - growLater.size
      ∧ 1 ≤ size_sub lp64 growLater.alloc growLater.size
      ∧ growLater.buf.length = growLater.alloc ∧ growLater.alloc ≤ lp64.SIZE_MAX
      ∧ growLater.size + (growLater.read lp64).1.length ≤ growLater.alloc
      ∧ (∀ buf len s1 w1, loop_body lp64 growLater = .done (some (buf, len), s1, w1) →
          len ≤ buf.length - 1 ∧ len < buf.length) :=
  fread_file_buffer_invariant lp64 2 (regOf 2 [1, 2, 3, 4, 5, 6]) world0 growStart growLater
    (by decide) (by decide) rfl rfl


theorem fread_loop_returns_data (P : Platform) (fuel : Nat) (st : LoopState)
    (hl : st.Live P) (hfuel : st.stream.data.length + 1 ≤ fuel) :
    ∃ r, fread_loop P fuel st = some r := by
  induction fuel generalizing st with
  | zero => omega
  | succ m ih =>
    unfold fread_loop
    cases hb : loop_body P st with
    | done r => exact ⟨r, rfl⟩
    | next st1 =>
      obtain ⟨hl1, -, hd, -⟩ := loop_body_next_live P st st1 hl hb
      exact ih st1 hl1 (by omega)

theorem fread_loop_returns_cap (P : Platform) (fuel : Nat) (st : LoopState)
    (hl : st.Live P) (hfuel : P.SIZE_MAX - st.alloc + 1 ≤ fuel) :
    ∃ r, fread_loop P fuel st = some r := by
  induction fuel generalizing st with
  | zero => omega
  | succ m ih =>
    unfold fread_loop
    cases hb : loop_body P st with
    | done r => exact ⟨r, rfl⟩
    | next st1 =>
      obtain ⟨hl1, hgt, -, -⟩ := loop_body_next_live P st st1 hl hb
      have hmax1 := hl1.1.2.2
      exact ih st1 hl1 (by omega)

/-- Claim C20: progress and termination, for `BUFSIZ` at least 2 and within `size_t`.
The initial capacity is at least 2. Every growth step of the loop strictly increases
the capacity, which nothing else in the loop changes. `fread_file` returns, with a
buffer or with `NULL`, within `N + 1` passes for a stream that delivers `N` bytes, and
within `SIZE_MAX` passes whatever the stream delivers, since the capacity is bounded
by `SIZE_MAX`. -/
theorem fread_file_terminates (P : Platform) (s : FILE) (w : World)
    (hB : 2 ≤ P.BUFSIZ) (hB1 : P.BUFSIZ ≤ P.SIZE_MAX) :
    (∀ st0, fread_file_init P s w = .ok st0 → 2 ≤ st0.alloc)
    ∧ (∀ n st0 st st1, fread_file_init P s w = .ok st0 → loop_iter P n st0 = some st →
        loop_body P st = .next st1 → st.alloc < st1.alloc)
    ∧ (∀ fuel, min (s.data.length + 1) P.SIZE_MAX ≤ fuel →
        ∃ r, fread_file P fuel s w = some r) := by
  refine ⟨fun st0 hinit => (fread_file_init_live P s w st0 hB hB1 hinit).2.2, ?_, ?_⟩
  · intro n st0 st st1 hinit hreach hstep
    have hl0 := fread_file_init_live P s w st0 hB hB1 hinit
    obtain ⟨hl, -, -⟩ := loop_iter_live P n st0 st hl0 hreach
    exact (loop_body_next_live P st st1 hl hstep).2.1
  · intro fuel hfuel
    unfold fread_file
    cases hinit : fread_file_init P s w with
    | error r => exact ⟨r, rfl⟩
    | ok st0 =>
      have hl0 := fread_file_init_live P s w st0 hB hB1 hinit
      obtain ⟨-, hs, -⟩ := fread_file_init_fields P s w st0 hinit
      simp only
      by_cases hd : s.data.length + 1 ≤ fuel
      · exact fread_loop_returns_data P fuel st0 hl0 (by rw [hs]; exact hd)
      · have h2 := hl0.2.2
        exact fread_loop_returns_cap P fuel st0 hl0 (by omega)

/-- Claim C20 at a file that delivers 6 bytes, read with 7 passes of fuel. -/
theorem fread_file_terminates_witness :
    2 ≤ growStart.alloc ∧ growStart.alloc < growLater.alloc
      ∧ ∃ r, fread_file lp64 7 (regOf 2 [1, 2, 3, 4, 5, 6]) world0 = some r :=
  ⟨(fread_file_terminates lp64 (regOf 2 [1, 2, 3, 4, 5, 6]) world0 (by decide) (by decide)).1
      growStart rfl,
    by decide,
    (fread_file_terminates lp64 (regOf 2 [1, 2, 3, 4, 5, 6]) world0 (by decide) (by decide)).2.2
      7 (by decide)⟩

end ReadFile
